import Mathlib

/-!
Shallow embedding of the version-lifecycle and merge engine of the
skill-vision-control repository (src/svc/core/merger.ts, manager.ts and
src/svc/utils/fs.ts), together with theorems settling the frozen claims.

File contents are represented by their `'\n'`-split line lists
(`Content := List String`): JavaScript's `content.split('\n')` and
`lines.join('\n')` are mutually inverse on strings whose lines contain no
newline, so whole-content byte equality coincides with equality of the
line lists, and the line-oriented merge code never inspects anything
finer.  Directory trees are association lists from relative file paths to
contents; real directory listings yield each path once, which theorems
record as `Nodup` hypotheses on the key lists where it matters.
-/

namespace Svc

/-- A file's content, as the list of its newline-separated lines. -/
abbrev Content := List String

/-- A directory tree: relative file path to file content. -/
abbrev FileTree := List (String × Content)

/-- Association-list lookup (first binding wins), as `Map.get`/file reads. -/
def lookupA {α β : Type} [DecidableEq α] (a : α) : List (α × β) → Option β
  | [] => none
  | e :: t => if e.1 = a then some e.2 else lookupA a t

/-- Overwriting update of an association list (`fs.writeFileSync` /
`fs.copyFileSync` onto a path, `saveSkill`, `createSymlink`). -/
def updateAssoc {α β : Type} [DecidableEq α] (l : List (α × β)) (a : α) (b : β) :
    List (α × β) :=
  l.filter (fun e => e.1 ≠ a) ++ [(a, b)]

/-- `lookupFile t f`: the content stored for path `f`, if the file exists. -/
def lookupFile (t : FileTree) (f : String) : Option Content := lookupA f t

/-- `readFileContent` from merger.ts: missing files read as the empty
string, whose line list is `[""]`. -/
def readFileLines (t : FileTree) (f : String) : Content :=
  (lookupFile t f).getD [""]

/-- Write (or overwrite) one file of a tree. -/
def setFile (t : FileTree) (f : String) (c : Content) : FileTree :=
  updateAssoc t f c

/-- `copyDir src dest` from src/svc/utils/fs.ts: copy every file of `src`
into `dest`, overwriting clashes and keeping `dest` files not in `src`. -/
def copyTree (src dest : FileTree) : FileTree :=
  src.foldl (fun d e => setFile d e.1 e.2) dest

/-- `listFiles dir true`: the relative paths of a tree. -/
def treeFiles (t : FileTree) : List String := t.map Prod.fst

/-- The `DiffResult` record of merger.ts. -/
structure DiffResult where
  added : List String
  modified : List String
  deleted : List String
  conflicts : List String
deriving DecidableEq

/-- `diffDirectories(baseDir, newDir, customDir)` from merger.ts.
`added`/`deleted` compare file sets; files present in both base and new
are classified by whole-content comparison, where a missing custom file
reads as empty content. -/
def diffDirectories (baseT newT customT : FileTree) : DiffResult :=
  let baseFiles := treeFiles baseT
  let newFiles := treeFiles newT
  { added := newFiles.filter (fun f => decide (f ∉ baseFiles))
    deleted := baseFiles.filter (fun f => decide (f ∉ newFiles))
    modified := baseFiles.filter (fun f => decide (f ∈ newFiles ∧
      readFileLines baseT f ≠ readFileLines newT f ∧
      ¬(readFileLines baseT f ≠ readFileLines customT f ∧
        readFileLines newT f ≠ readFileLines customT f)))
    conflicts := baseFiles.filter (fun f => decide (f ∈ newFiles ∧
      readFileLines baseT f ≠ readFileLines newT f ∧
      readFileLines baseT f ≠ readFileLines customT f ∧
      readFileLines newT f ≠ readFileLines customT f)) }

/-- The conflict-block opener line pushed by `mergeFile`. -/
def markerOpen : String := "<<<<<<< OFFICIAL (new version)"

/-- The conflict-block separator line pushed by `mergeFile`. -/
def markerSep : String := "======="

/-- The conflict-block closer line pushed by `mergeFile`. -/
def markerClose : String := ">>>>>>> CUSTOM (your changes)"

/-- The opener pattern searched for by `getConflicts`/`resolveConflict`. -/
def markerOpenPat : String := "<<<<<<< OFFICIAL"

/-- The closer pattern searched for by `getConflicts`/`resolveConflict`. -/
def markerClosePat : String := ">>>>>>> CUSTOM"

/-- `lines[i] ?? ''`: indexing a line list padded with empty lines. -/
def padGet (l : Content) (i : Nat) : String := (l[i]?).getD ""

/-- The lines `mergeFile` pushes for one line index, given the three
padded lines at that index. -/
def mergeLineOut (b n c : String) : List String :=
  if b ≠ n ∧ b ≠ c ∧ n ≠ c then [markerOpen, n, markerSep, c, markerClose]
  else if b ≠ c then [c]
  else if b ≠ n then [n]
  else [b]

/-- One iteration of the `mergeFile` loop: extend the merged lines and
update the (last-write-wins) conflict line number. -/
def mergeStep (bl nl cl : Content) (acc : Content × Option Nat) (i : Nat) :
    Content × Option Nat :=
  let b := padGet bl i
  let n := padGet nl i
  let c := padGet cl i
  (acc.1 ++ mergeLineOut b n c,
   if b ≠ n ∧ b ≠ c ∧ n ≠ c then some (i + 1) else acc.2)

/-- Result of `mergeFile`: the merged lines, plus the recorded conflict
line number when the file had a conflict (`hasConflict`). -/
structure MergeFileOut where
  lines : Content
  conflictLine : Option Nat
deriving DecidableEq

/-- `mergeFile` from merger.ts, at the level of the three line lists: a
line-indexed three-way merge over indices up to the longest input. -/
def mergeFile (bl nl cl : Content) : MergeFileOut :=
  let maxLen := max bl.length (max nl.length cl.length)
  let r := (List.range maxLen).foldl (mergeStep bl nl cl) ([], none)
  ⟨r.1, r.2⟩

/-! ## Registry and snapshot-store state (src/svc/types.ts, utils/config.ts) -/

/-- The `PendingVersion` record of types.ts. -/
structure PendingVersion where
  version : String
  downloaded : Bool
  merged : Bool
  mergedVersion : Option String
deriving DecidableEq

/-- The `Skill` record of types.ts (fields the core operates on). -/
structure Skill where
  name : String
  officialVersion : String
  activeVersion : String
  activeType : String
  hasCustomChanges : Bool
  customBase : Option String
  pending : Option PendingVersion
deriving DecidableEq

/-- Identity of one snapshot directory: `versionsDir/<pool>/<version>` of a
unit, as in `getSkillVersionsDir` path construction. -/
structure SnapKey where
  skill : String
  pool : String
  version : String
deriving DecidableEq

/-- One snapshot directory: its tree and its creation (birth) time. -/
structure Snapshot where
  tree : FileTree
  createdAt : Nat
deriving DecidableEq

/-- The whole persistent state the core sees: the skills registry, every
snapshot directory, and each unit's `active` symlink target. -/
structure SvcState where
  skills : List (String × Skill)
  snaps : List (SnapKey × Snapshot)
  active : List (String × SnapKey)
deriving DecidableEq

/-- `getSkill` from utils/config.ts. -/
def getSkill (st : SvcState) (name : String) : Option Skill :=
  lookupA name st.skills

/-- `saveSkill` from utils/config.ts: the registry entry is keyed by
`skill.name`. -/
def saveSkill (st : SvcState) (sk : Skill) : SvcState :=
  { st with skills := updateAssoc st.skills sk.name sk }

/-- `fs.existsSync`/reading of a snapshot directory. -/
def lookupSnap (st : SvcState) (k : SnapKey) : Option Snapshot :=
  lookupA k st.snaps

/-- Create or overwrite a snapshot directory. -/
def setSnap (st : SvcState) (k : SnapKey) (s : Snapshot) : SvcState :=
  { st with snaps := updateAssoc st.snaps k s }

/-- The tree of a snapshot directory, empty when the directory is absent
(`listFiles` returns `[]` for a missing directory). -/
def getTreeOrEmpty (st : SvcState) (k : SnapKey) : FileTree :=
  match lookupSnap st k with
  | some s => s.tree
  | none => []

/-! ## Version switching and rollback (src/svc/core/manager.ts) -/

/-- `switchVersion(skillName, version, type)` from manager.ts: fails when
the target snapshot directory is missing; otherwise repoints the `active`
symlink and, when the registry has the unit, updates its
`activeVersion`/`activeType`. -/
def switchVersion (st : SvcState) (name version type : String) :
    Bool × SvcState :=
  let key : SnapKey := ⟨name, type, version⟩
  match lookupSnap st key with
  | none => (false, st)
  | some _ =>
    let st1 := { st with active := updateAssoc st.active name key }
    let st2 := match getSkill st1 name with
      | some sk => saveSkill st1 { sk with activeVersion := version, activeType := type }
      | none => st1
    (true, st2)

/-- The `VersionInfo` record of types.ts (`path` is determined by
`(type, version)` and omitted). -/
structure VersionInfo where
  version : String
  type : String
  createdAt : Nat
  isActive : Bool
deriving DecidableEq

/-- One pool's portion of `getVersions`: each snapshot directory of the
pool, flagged active when the `active` symlink points at it. -/
def poolVersions (st : SvcState) (name pool : String) : List VersionInfo :=
  st.snaps.filterMap (fun e =>
    if e.1.skill = name ∧ e.1.pool = pool then
      some ⟨e.1.version, pool, e.2.createdAt, decide (lookupA name st.active = some e.1)⟩
    else none)

/-- Insert into a list sorted by `createdAt` descending, after every
element with a strictly larger time and before ties: combined with
`sortByTime` this is the stable sort `Array.prototype.sort` performs with
the comparator `(a, b) => timeB - timeA`. -/
def insertByTime (a : VersionInfo) : List VersionInfo → List VersionInfo
  | [] => [a]
  | b :: t => if b.createdAt ≤ a.createdAt then a :: b :: t else b :: insertByTime a t

/-- Stable sort by `createdAt` descending (see `insertByTime`). -/
def sortByTime : List VersionInfo → List VersionInfo
  | [] => []
  | a :: t => insertByTime a (sortByTime t)

/-- `getVersions` from manager.ts: official, custom then merged snapshots,
sorted by creation time descending. -/
def getVersions (st : SvcState) (name : String) : List VersionInfo :=
  sortByTime (poolVersions st name "official" ++ poolVersions st name "custom"
    ++ poolVersions st name "merged")

/-- `rollbackVersion` from manager.ts: find the active entry in the
creation-time-descending list and switch to the entry right after it;
fail when there is none or the active entry is last. -/
def rollbackVersion (st : SvcState) (name : String) : Bool × SvcState :=
  let versions := getVersions st name
  match versions.findIdx? (fun v => v.isActive) with
  | none => (false, st)
  | some i =>
    if versions.length ≤ i + 1 then (false, st)
    else
      match versions[i + 1]? with
      | some prev => switchVersion st name prev.version prev.type
      | none => (false, st)

/-! ## The merge engine's stateful entry points (src/svc/core/merger.ts) -/

/-- The `ConflictInfo` record of types.ts (contents in line-list form). -/
structure ConflictInfo where
  file : String
  lineNumber : Nat
  officialContent : Content
  customContent : Content
  resolved : Bool
deriving DecidableEq

/-- The `MergeResult` record of types.ts. -/
structure MergeResult where
  success : Bool
  conflicts : List ConflictInfo
  mergedVersion : String
  addedFiles : List String
  modifiedFiles : List String
deriving DecidableEq

/-- The failure result `mergeVersions` returns on missing inputs. -/
def failRes : MergeResult := ⟨false, [], "", [], []⟩

/-- One iteration of the modified/conflict loops in `mergeVersions`: run
`mergeFile` on a path, write its output into the merged tree, and push a
`ConflictInfo` when the file had a conflict. -/
def doMergeFileStep (baseT newT customT : FileTree)
    (acc : FileTree × List ConflictInfo) (f : String) :
    FileTree × List ConflictInfo :=
  let out := mergeFile (readFileLines baseT f) (readFileLines newT f)
    (readFileLines customT f)
  (setFile acc.1 f out.lines,
   match out.conflictLine with
   | some ln =>
     acc.2 ++ [⟨f, ln, readFileLines newT f, readFileLines customT f, false⟩]
   | none => acc.2)

/-- The tree/conflict computation of `mergeVersions` after its input
checks: copy the custom tree over the (normally empty) merged directory,
copy `added` files from the new version, then run `mergeFile` over the
`modified` and `conflicts` paths. -/
def mergeTrees (baseT newT customT m0 : FileTree) :
    FileTree × List ConflictInfo × DiffResult :=
  let diff := diffDirectories baseT newT customT
  let m1 := diff.added.foldl (fun t f => setFile t f (readFileLines newT f))
    (copyTree customT m0)
  let r2 := diff.modified.foldl (doMergeFileStep baseT newT customT) (m1, [])
  let r3 := diff.conflicts.foldl (doMergeFileStep baseT newT customT) r2
  (r3.1, r3.2, diff)

/-- `mergeVersions(skillName)` from merger.ts.  `now` is the clock value
used as the birth time of a freshly created merged directory. -/
def mergeVersions (st : SvcState) (name : String) (now : Nat) :
    MergeResult × SvcState :=
  match getSkill st name with
  | none => (failRes, st)
  | some sk =>
    match sk.pending with
    | none => (failRes, st)
    | some p =>
      if sk.hasCustomChanges = false then (failRes, st)
      else
        let baseKey : SnapKey := ⟨name, "official", sk.customBase.getD sk.officialVersion⟩
        let newKey : SnapKey := ⟨name, "official", p.version⟩
        let customKey : SnapKey :=
          ⟨name, "custom", (match sk.customBase with
            | some v => v
            | none => "undefined") ++ "-custom"⟩
        let mergedVer := p.version ++ "-merged"
        let mergedKey : SnapKey := ⟨name, "merged", mergedVer⟩
        match lookupSnap st baseKey, lookupSnap st newKey, lookupSnap st customKey with
        | some bs, some ns, some cs =>
          let createdAt := match lookupSnap st mergedKey with
            | some s => s.createdAt
            | none => now
          let r := mergeTrees bs.tree ns.tree cs.tree (getTreeOrEmpty st mergedKey)
          let st1 := setSnap st mergedKey ⟨r.1, createdAt⟩
          let st2 := saveSkill st1
            { sk with pending := some { p with merged := true, mergedVersion := some mergedVer } }
          ({ success := r.2.1.length = 0, conflicts := r.2.1, mergedVersion := mergedVer,
             addedFiles := r.2.2.added, modifiedFiles := r.2.2.modified }, st2)
        | _, _, _ => (failRes, st)

/-! ## Conflict scanning and resolution (src/svc/core/merger.ts) -/

/-- Boolean prefix test on character lists. -/
def charsHasPrefix : List Char → List Char → Bool
  | [], _ => true
  | _ :: _, [] => false
  | p :: ps, c :: cs => p = c && charsHasPrefix ps cs

/-- Boolean infix test on character lists. -/
def charsHasInfix (pat : List Char) : List Char → Bool
  | [] => charsHasPrefix pat []
  | c :: cs => charsHasPrefix pat (c :: cs) || charsHasInfix pat cs

/-- JavaScript `s.includes(pat)`. -/
def strIncludes (s pat : String) : Bool := charsHasInfix pat.toList s.toList

/-- JavaScript `s.startsWith(pat)`; conflict markers written by
`mergeFile` start their lines. -/
def strStarts (s pat : String) : Bool := charsHasPrefix pat.toList s.toList

/-- The `getConflicts` entries contributed by one file: when the content
holds both marker patterns, one entry per line containing the opener
pattern, carrying that line's 1-based number and empty contents. -/
def fileMarkerEntries (f : String) (ls : Content) : List ConflictInfo :=
  if (ls.any fun l => strIncludes l markerOpenPat) &&
      (ls.any fun l => strIncludes l markerClosePat) then
    ls.enum.filterMap (fun e =>
      if strIncludes e.2 markerOpenPat then some ⟨f, e.1 + 1, [""], [""], false⟩
      else none)
  else []

/-- `getConflicts(skillName)` from merger.ts: re-scan every file of the
pending merged snapshot for marker lines. -/
def getConflicts (st : SvcState) (name : String) : List ConflictInfo :=
  match getSkill st name with
  | none => []
  | some sk =>
    match sk.pending with
    | none => []
    | some p =>
      match p.mergedVersion with
      | none => []
      | some mv =>
        let tree := getTreeOrEmpty st ⟨name, "merged", mv⟩
        tree.flatMap (fun e => fileMarkerEntries e.1 e.2)

/-- Locate one conflict block after an opener line: the official lines up
to the first exact `=======` line (at least one line in, as the regex's
two mandatory newlines require), the custom lines up to the first line
starting with the closer pattern, and the remaining lines after it. -/
def splitBlock (ls : List String) : Option (List String × List String × List String) :=
  match (ls.drop 1).findIdx? (fun l => l = markerSep) with
  | none => none
  | some j' =>
    match (ls.drop (j' + 3)).findIdx? (fun l => strStarts l markerClosePat) with
    | none => none
    | some k' =>
      some (ls.take (j' + 1), (ls.drop (j' + 2)).take (k' + 1),
        ls.drop (j' + 3 + k' + 1))

/-- The replacement the `resolveConflict` switch produces for one block. -/
def choiceLines (choice : String) (off cust : List String) : List String :=
  if choice = "official" then off
  else if choice = "custom" then cust
  else if choice = "both" then off ++ cust
  else cust

/-- The global regex replacement of `resolveConflict`, on line lists: scan
for opener lines, replace each well-formed block with the chosen lines,
and continue after the replaced block.  The recursion is driven by a fuel
counter for structural (kernel-reducible) recursion; `splitBlock` leaves
a suffix no longer than its input, so fuel equal to the list length (as
supplied by `resolveLines`) never runs out and the fuel-exhaustion branch
is unreachable. -/
def resolveLinesFuel (choice : String) : Nat → List String → List String
  | 0, ls => ls
  | _ + 1, [] => []
  | fuel + 1, l :: rest =>
    if strStarts l markerOpenPat then
      match splitBlock rest with
      | some (off, cust, rest2) =>
        choiceLines choice off cust ++ resolveLinesFuel choice fuel rest2
      | none => l :: resolveLinesFuel choice fuel rest
    else l :: resolveLinesFuel choice fuel rest

/-- The global regex replacement of `resolveConflict` (see
`resolveLinesFuel`). -/
def resolveLines (choice : String) (ls : List String) : List String :=
  resolveLinesFuel choice ls.length ls

/-- `resolveConflict(skillName, file, resolution)` from merger.ts. -/
def resolveConflict (st : SvcState) (name file choice : String) :
    Bool × SvcState :=
  match getSkill st name with
  | none => (false, st)
  | some sk =>
    match sk.pending with
    | none => (false, st)
    | some p =>
      match p.mergedVersion with
      | none => (false, st)
      | some mv =>
        let mergedKey : SnapKey := ⟨name, "merged", mv⟩
        match lookupSnap st mergedKey with
        | none => (false, st)
        | some snap =>
          match lookupFile snap.tree file with
          | none => (false, st)
          | some ls =>
            (true, setSnap st mergedKey
              ⟨setFile snap.tree file (resolveLines choice ls), snap.createdAt⟩)

/-! ## Helper definitions used by theorem statements -/

/-- Concatenation of the images of a list (the sequence of `push`es a
loop produces). -/
def listFlat {α β : Type} (g : α → List β) : List α → List β
  | [] => []
  | a :: t => g a ++ listFlat g t

/-- The line indices at which the three-way per-line conflict condition
of `mergeFile` holds, in increasing order. -/
def conflictIdxs (bl nl cl : Content) : List Nat :=
  (List.range (max bl.length (max nl.length cl.length))).filter
    (fun i => decide (padGet bl i ≠ padGet nl i ∧ padGet bl i ≠ padGet cl i ∧
      padGet nl i ≠ padGet cl i))

/-- No line of the content contains either conflict-marker pattern.
Real source files satisfy this; `getConflicts` cannot distinguish marker
text occurring in content from markers written by the merge. -/
def markerFree (ls : Content) : Prop :=
  ∀ l ∈ ls, strIncludes l markerOpenPat = false ∧
    strIncludes l markerClosePat = false

instance (ls : Content) : Decidable (markerFree ls) :=
  List.decidableBAll _ ls

/-- The tree content `doMergeFileStep` writes for one path. -/
def mergeOutTree (baseT newT customT : FileTree) (f : String) : Content :=
  (mergeFile (readFileLines baseT f) (readFileLines newT f)
    (readFileLines customT f)).lines

/-- The conflict entry `doMergeFileStep` pushes for one path, if any. -/
def mergeConflictOf (baseT newT customT : FileTree) (f : String) :
    Option ConflictInfo :=
  match (mergeFile (readFileLines baseT f) (readFileLines newT f)
      (readFileLines customT f)).conflictLine with
  | some ln =>
    some ⟨f, ln, readFileLines newT f, readFileLines customT f, false⟩
  | none => none

/-- The per-line merge rule exactly as the specification words it: a
conflict block iff upstream and local both changed, differently; else the
local line when it changed; else the upstream line when it changed; else
the base line.  Stated from the spec to compare against `mergeLineOut`,
which is translated from the code. -/
def specLineMerge (base upstream locl : String) : List String :=
  if upstream ≠ base ∧ locl ≠ base ∧ upstream ≠ locl then
    [markerOpen, upstream, markerSep, locl, markerClose]
  else if locl ≠ base then [locl]
  else if upstream ≠ base then [upstream]
  else [base]

/-! ## Concrete states used by witnesses and counterexamples -/

/-- A registered unit with no pending update, active at official `v2`. -/
def exSkill : Skill := ⟨"s", "v2", "v2", "official", false, none, none⟩

/-- A state with two official snapshots `v1` (older) and `v2` (newer),
active at `v2`. -/
def exState : SvcState :=
  ⟨[("s", exSkill)],
   [(⟨"s", "official", "v1"⟩, ⟨[("f", ["1"])], 1⟩),
    (⟨"s", "official", "v2"⟩, ⟨[("f", ["2"])], 2⟩)],
   [("s", ⟨"s", "official", "v2"⟩)]⟩

/-- A unit forked at `v1` with a pending downloaded `v2`. -/
def exSkillPend : Skill :=
  ⟨"s", "v1", "v1-custom", "custom", true, some "v1",
   some ⟨"v2", true, false, none⟩⟩

/-- A state where the pending unit's snapshot directories are all
absent. -/
def exStateMissing : SvcState := ⟨[("s", exSkillPend)], [], []⟩

/-- A state holding the three merge inputs for `exSkillPend`, with the
local (custom) tree byte-identical to the base tree. -/
def exStateLocalBase : SvcState :=
  ⟨[("s", exSkillPend)],
   [(⟨"s", "official", "v1"⟩, ⟨[("f", ["a", "b"])], 1⟩),
    (⟨"s", "official", "v2"⟩, ⟨[("f", ["a"])], 2⟩),
    (⟨"s", "custom", "v1-custom"⟩, ⟨[("f", ["a", "b"])], 3⟩)],
   []⟩

/-- Merge inputs producing exactly one conflicting line in one file. -/
def exStateOneConflict : SvcState :=
  ⟨[("s", exSkillPend)],
   [(⟨"s", "official", "v1"⟩, ⟨[("f", ["a"])], 1⟩),
    (⟨"s", "official", "v2"⟩, ⟨[("f", ["x"])], 2⟩),
    (⟨"s", "custom", "v1-custom"⟩, ⟨[("f", ["p"])], 3⟩)],
   []⟩

/-- Merge inputs producing two conflicting lines in one file. -/
def exStateTwoConflicts : SvcState :=
  ⟨[("s", exSkillPend)],
   [(⟨"s", "official", "v1"⟩, ⟨[("f", ["a", "b"])], 1⟩),
    (⟨"s", "official", "v2"⟩, ⟨[("f", ["x", "y"])], 2⟩),
    (⟨"s", "custom", "v1-custom"⟩, ⟨[("f", ["p", "q"])], 3⟩)],
   []⟩

/-- A unit whose pending update has been merged into `v2-merged`. -/
def exSkillMerged : Skill :=
  ⟨"s", "v1", "v1-custom", "custom", true, some "v1",
   some ⟨"v2", true, true, some "v2-merged"⟩⟩

/-- A state with a merged snapshot holding one conflict block in file
`"f"` and a clean file `"g"`. -/
def exStateResolved : SvcState :=
  ⟨[("s", exSkillMerged)],
   [(⟨"s", "merged", "v2-merged"⟩,
     ⟨[("f", [markerOpen, "B", markerSep, "C", markerClose]),
       ("g", ["ok"])], 4⟩)],
   []⟩

/-! ## Association-list lemmas -/

theorem lookupA_eq_none_iff {α β : Type} [DecidableEq α] {a : α} :
    ∀ {l : List (α × β)}, lookupA a l = none ↔ a ∉ l.map Prod.fst := by
  intro l
  induction l with
  | nil => simp [lookupA]
  | cons e t ih =>
    by_cases he : e.1 = a
    · simp [lookupA, he]
    · simp [lookupA, he, ih, Ne.symm he]

theorem lookupA_ne_none_of_mem {α β : Type} [DecidableEq α] {a : α} {b : β}
    {l : List (α × β)} (h : (a, b) ∈ l) : lookupA a l ≠ none := by
  intro hn
  rw [lookupA_eq_none_iff] at hn
  exact hn (List.mem_map.mpr ⟨(a, b), h, rfl⟩)

theorem lookupA_append_none {α β : Type} [DecidableEq α] {a : α}
    {l₁ : List (α × β)} (l₂ : List (α × β)) (h : lookupA a l₁ = none) :
    lookupA a (l₁ ++ l₂) = lookupA a l₂ := by
  induction l₁ with
  | nil => simp
  | cons e t ih =>
    by_cases he : e.1 = a
    · simp [lookupA, he] at h
    · simp only [lookupA, he, if_false, List.cons_append] at h ⊢
      exact ih h

theorem lookupA_append_some {α β : Type} [DecidableEq α] {a : α} {b : β}
    {l₁ : List (α × β)} (l₂ : List (α × β)) (h : lookupA a l₁ = some b) :
    lookupA a (l₁ ++ l₂) = some b := by
  induction l₁ with
  | nil => simp [lookupA] at h
  | cons e t ih =>
    by_cases he : e.1 = a
    · simp_all [lookupA, he]
    · simp only [lookupA, he, if_false, List.cons_append] at h ⊢
      exact ih h

theorem lookupA_filter_false {α β : Type} [DecidableEq α] {a : α}
    {q : α × β → Bool} {l : List (α × β)} (h : ∀ b, q (a, b) = false) :
    lookupA a (l.filter q) = none := by
  induction l with
  | nil => rfl
  | cons e t ih =>
    by_cases he : e.1 = a
    · have : q e = false := by rw [show e = (a, e.2) by rw [← he]]; exact h e.2
      simp [List.filter_cons, this, ih]
    · rcases hq : q e with _ | _
      · simp [List.filter_cons, hq, ih]
      · simp [List.filter_cons, hq, lookupA, he, ih]

theorem lookupA_filter_true {α β : Type} [DecidableEq α] {a : α}
    {q : α × β → Bool} {l : List (α × β)} (h : ∀ b, q (a, b) = true) :
    lookupA a (l.filter q) = lookupA a l := by
  induction l with
  | nil => rfl
  | cons e t ih =>
    by_cases he : e.1 = a
    · have : q e = true := by rw [show e = (a, e.2) by rw [← he]]; exact h e.2
      simp [List.filter_cons, this, lookupA, he]
    · rcases hq : q e with _ | _
      · simp [List.filter_cons, hq, ih, lookupA, he]
      · simp [List.filter_cons, hq, lookupA, he, ih]

theorem lookupA_updateAssoc_self {α β : Type} [DecidableEq α]
    (l : List (α × β)) (a : α) (b : β) :
    lookupA a (updateAssoc l a b) = some b := by
  unfold updateAssoc
  rw [lookupA_append_none _ (lookupA_filter_false (fun _ => by simp))]
  simp [lookupA]

theorem lookupA_updateAssoc_ne {α β : Type} [DecidableEq α]
    (l : List (α × β)) {a a' : α} (b : β) (h : a' ≠ a) :
    lookupA a' (updateAssoc l a b) = lookupA a' l := by
  unfold updateAssoc
  have hfilter : lookupA a' (l.filter fun e => e.1 ≠ a) = lookupA a' l :=
    lookupA_filter_true (fun _ => by simp [h])
  rcases hl : lookupA a' l with _ | v
  · rw [lookupA_append_none _ (hfilter.trans hl)]
    simp [lookupA, Ne.symm h]
  · rw [lookupA_append_some _ (hfilter.trans hl)]

theorem lookupA_map_pair {α β : Type} [DecidableEq α] (g : α → β) (a : α) :
    ∀ (fs : List α), lookupA a (fs.map fun x => (x, g x)) =
      if a ∈ fs then some (g a) else none := by
  intro fs
  induction fs with
  | nil => simp [lookupA]
  | cons x t ih =>
    by_cases hx : x = a
    · subst hx; simp [lookupA, ih]
    · simp [lookupA, hx, ih, Ne.symm hx]

/-! ## The `mergeFile` loop, unrolled -/

theorem foldl_mergeStep (bl nl cl : Content) :
    ∀ (L : List Nat) (acc : Content × Option Nat),
      L.foldl (mergeStep bl nl cl) acc =
        (acc.1 ++ listFlat
            (fun i => mergeLineOut (padGet bl i) (padGet nl i) (padGet cl i)) L,
         (L.filter fun i => decide (padGet bl i ≠ padGet nl i ∧
             padGet bl i ≠ padGet cl i ∧ padGet nl i ≠ padGet cl i)).foldl
           (fun _ i => some (i + 1)) acc.2) := by
  intro L
  induction L with
  | nil => intro acc; simp [listFlat]
  | cons i t ih =>
    intro acc
    rw [List.foldl_cons, ih]
    unfold mergeStep
    by_cases hc : padGet bl i ≠ padGet nl i ∧ padGet bl i ≠ padGet cl i ∧
        padGet nl i ≠ padGet cl i
    · simp [listFlat, List.filter_cons, hc, List.append_assoc]
    · simp [listFlat, List.filter_cons, hc, List.append_assoc]

theorem foldl_overwrite : ∀ (L : List Nat) (a : Option Nat),
    L.foldl (fun _ i => some (i + 1)) a =
      match L.getLast? with
      | some j => some (j + 1)
      | none => a := by
  intro L
  induction L with
  | nil => intro a; rfl
  | cons i t ih =>
    intro a
    rw [List.foldl_cons, ih]
    cases t with
    | nil => rfl
    | cons x t' =>
      rcases h : (x :: t').getLast? with _ | j
      · simp at h
      · rw [List.getLast?_cons_cons, h]

theorem mergeFile_lines (bl nl cl : Content) :
    (mergeFile bl nl cl).lines =
      listFlat (fun i => mergeLineOut (padGet bl i) (padGet nl i) (padGet cl i))
        (List.range (max bl.length (max nl.length cl.length))) := by
  simp [mergeFile, foldl_mergeStep]

theorem mergeFile_conflictLine_eq (bl nl cl : Content) :
    (mergeFile bl nl cl).conflictLine =
      match (conflictIdxs bl nl cl).getLast? with
      | some j => some (j + 1)
      | none => none := by
  simp [mergeFile, conflictIdxs, foldl_mergeStep, foldl_overwrite]

/-! ## Claim C5 -/

/-- C5 (corrected): the line number `mergeFile` records for a conflicted
file is `i + 1` for the LAST line index `i` at which the three-way
conflict condition holds (the loop reassigns `conflictLine` on every
conflicting index), not the first. -/
theorem mergeFile_conflictLine_last (bl nl cl : Content) :
    (mergeFile bl nl cl).conflictLine =
      ((conflictIdxs bl nl cl).getLast?).map (· + 1) := by
  rw [mergeFile_conflictLine_eq]
  cases (conflictIdxs bl nl cl).getLast? <;> rfl

/-- C5 counterexample: with conflicts at line indices 0 and 1, the
conflict condition first holds at index 0 — the claim's "first (smallest)
line" is line 1 — yet `mergeFile` records line 2. -/
theorem mergeFile_conflictLine_not_first_cex :
    ("a" ≠ "x" ∧ "a" ≠ "p" ∧ "x" ≠ "p") ∧
    (mergeFile ["a", "b"] ["x", "y"] ["p", "q"]).conflictLine = some 2 ∧
    (mergeFile ["a", "b"] ["x", "y"] ["p", "q"]).conflictLine ≠ some 1 := by
  decide

/-! ## Claim C3 -/

/-- C3 (confirmed): at every line index of the three padded line
sequences, `mergeFile` emits exactly what the specification's per-line
rule dictates — a conflict block iff upstream and local both changed and
differ, else the local line when it changed, else the upstream line when
it changed, else the base line — and in the scenario base `"A"`,
upstream `"B"`, local `"A"` the merged line is `"B"` with no conflict. -/
theorem mergeLine_spec_equiv :
    (∀ b n c, mergeLineOut b n c = specLineMerge b n c) ∧
    (∀ bl nl cl, (mergeFile bl nl cl).lines =
      listFlat (fun i => specLineMerge (padGet bl i) (padGet nl i) (padGet cl i))
        (List.range (max bl.length (max nl.length cl.length)))) ∧
    mergeFile ["A"] ["B"] ["A"] = ⟨["B"], none⟩ := by
  have h1 : ∀ b n c, mergeLineOut b n c = specLineMerge b n c := by
    intro b n c
    unfold mergeLineOut specLineMerge
    exact if_congr
      ⟨fun ⟨x, y, z⟩ => ⟨Ne.symm x, Ne.symm y, z⟩,
       fun ⟨x, y, z⟩ => ⟨Ne.symm x, Ne.symm y, z⟩⟩ rfl
      (if_congr ne_comm rfl (if_congr ne_comm rfl rfl))
  refine ⟨h1, ?_, by decide⟩
  intro bl nl cl
  rw [mergeFile_lines]
  simp only [h1]

/-! ## Claim C1 -/

theorem mem_diff_added {b n c : FileTree} {f : String} :
    f ∈ (diffDirectories b n c).added ↔ f ∈ treeFiles n ∧ f ∉ treeFiles b := by
  simp [diffDirectories, List.mem_filter]

theorem mem_diff_deleted {b n c : FileTree} {f : String} :
    f ∈ (diffDirectories b n c).deleted ↔ f ∈ treeFiles b ∧ f ∉ treeFiles n := by
  simp [diffDirectories, List.mem_filter]

theorem mem_diff_modified {b n c : FileTree} {f : String} :
    f ∈ (diffDirectories b n c).modified ↔ f ∈ treeFiles b ∧ f ∈ treeFiles n ∧
      readFileLines b f ≠ readFileLines n f ∧
      ¬(readFileLines b f ≠ readFileLines c f ∧
        readFileLines n f ≠ readFileLines c f) := by
  simp only [diffDirectories, List.mem_filter, decide_eq_true_eq, treeFiles]

theorem mem_diff_conflicts {b n c : FileTree} {f : String} :
    f ∈ (diffDirectories b n c).conflicts ↔ f ∈ treeFiles b ∧ f ∈ treeFiles n ∧
      readFileLines b f ≠ readFileLines n f ∧
      readFileLines b f ≠ readFileLines c f ∧
      readFileLines n f ≠ readFileLines c f := by
  simp [diffDirectories, List.mem_filter, and_assoc]

/-- C1 (corrected): the four buckets of `diffDirectories` are pairwise
disjoint, and every path of base ∪ upstream lies in exactly one of them
UNLESS it is present in both trees with equal content — such unchanged
common paths fall in no bucket (the third loop's `else` pushes nothing
when `newChanged` is false). -/
theorem diffDirectories_buckets_amended (baseT newT customT : FileTree)
    (f : String) :
    (¬(f ∈ (diffDirectories baseT newT customT).added ∧
        f ∈ (diffDirectories baseT newT customT).deleted) ∧
     ¬(f ∈ (diffDirectories baseT newT customT).added ∧
        f ∈ (diffDirectories baseT newT customT).modified) ∧
     ¬(f ∈ (diffDirectories baseT newT customT).added ∧
        f ∈ (diffDirectories baseT newT customT).conflicts) ∧
     ¬(f ∈ (diffDirectories baseT newT customT).deleted ∧
        f ∈ (diffDirectories baseT newT customT).modified) ∧
     ¬(f ∈ (diffDirectories baseT newT customT).deleted ∧
        f ∈ (diffDirectories baseT newT customT).conflicts) ∧
     ¬(f ∈ (diffDirectories baseT newT customT).modified ∧
        f ∈ (diffDirectories baseT newT customT).conflicts)) ∧
    (f ∈ treeFiles baseT ∨ f ∈ treeFiles newT →
      ((f ∈ (diffDirectories baseT newT customT).added ∨
        f ∈ (diffDirectories baseT newT customT).deleted ∨
        f ∈ (diffDirectories baseT newT customT).modified ∨
        f ∈ (diffDirectories baseT newT customT).conflicts) ∨
       (f ∈ treeFiles baseT ∧ f ∈ treeFiles newT ∧
        readFileLines baseT f = readFileLines newT f ∧
        f ∉ (diffDirectories baseT newT customT).added ∧
        f ∉ (diffDirectories baseT newT customT).deleted ∧
        f ∉ (diffDirectories baseT newT customT).modified ∧
        f ∉ (diffDirectories baseT newT customT).conflicts))) := by
  simp only [mem_diff_added, mem_diff_deleted, mem_diff_modified,
    mem_diff_conflicts]
  tauto

/-- C1 witness: instantiating the amended bucket theorem at a one-file
base tree. -/
theorem diffDirectories_buckets_amended_witness :
    ("a" ∈ treeFiles ([("a", ["1"])] : FileTree) ∨
      "a" ∈ treeFiles ([] : FileTree)) ∧
    (("a" ∈ (diffDirectories [("a", ["1"])] [] []).added ∨
      "a" ∈ (diffDirectories [("a", ["1"])] [] []).deleted ∨
      "a" ∈ (diffDirectories [("a", ["1"])] [] []).modified ∨
      "a" ∈ (diffDirectories [("a", ["1"])] [] []).conflicts) ∨
     ("a" ∈ treeFiles ([("a", ["1"])] : FileTree) ∧
      "a" ∈ treeFiles ([] : FileTree) ∧
      readFileLines [("a", ["1"])] "a" = readFileLines [] "a" ∧
      "a" ∉ (diffDirectories [("a", ["1"])] [] []).added ∧
      "a" ∉ (diffDirectories [("a", ["1"])] [] []).deleted ∧
      "a" ∉ (diffDirectories [("a", ["1"])] [] []).modified ∧
      "a" ∉ (diffDirectories [("a", ["1"])] [] []).conflicts)) :=
  ⟨by decide,
   (diffDirectories_buckets_amended [("a", ["1"])] [] [] "a").2 (by decide)⟩

/-- C1 counterexample: a file present (unchanged) in both base and
upstream belongs to none of the four buckets, refuting "every file path
occurring in base or in upstream belongs to exactly one of the four
sets". -/
theorem diffDirectories_unchanged_file_unbucketed :
    "f" ∈ treeFiles ([("f", ["x"])] : FileTree) ∧
    ¬("f" ∈ (diffDirectories [("f", ["x"])] [("f", ["x"])] []).added ∨
      "f" ∈ (diffDirectories [("f", ["x"])] [("f", ["x"])] []).deleted ∨
      "f" ∈ (diffDirectories [("f", ["x"])] [("f", ["x"])] []).modified ∨
      "f" ∈ (diffDirectories [("f", ["x"])] [("f", ["x"])] []).conflicts) := by
  decide

/-! ## Claim C6 -/

/-- C6 (confirmed): when any of the three required input snapshot
directories of a merge — the official base at `customBase`, the official
snapshot at the pending version, or the custom snapshot — is absent,
`mergeVersions` returns the failure result (`success = false`) and the
state is completely unchanged: no merged snapshot, no partial output, no
registry update. -/
theorem mergeVersions_missing_inputs (st : SvcState) (name : String)
    (now : Nat) (sk : Skill) (p : PendingVersion)
    (hsk : getSkill st name = some sk) (hp : sk.pending = some p)
    (hcc : sk.hasCustomChanges = true)
    (hmiss :
      lookupSnap st ⟨name, "official", sk.customBase.getD sk.officialVersion⟩ = none ∨
      lookupSnap st ⟨name, "official", p.version⟩ = none ∨
      lookupSnap st ⟨name, "custom",
        (match sk.customBase with
          | some v => v
          | none => "undefined") ++ "-custom"⟩ = none) :
    mergeVersions st name now = (failRes, st) := by
  simp only [mergeVersions, hsk, hp, hcc]
  rcases h1 : lookupSnap st
      ⟨name, "official", sk.customBase.getD sk.officialVersion⟩ with _ | bs <;>
    rcases h2 : lookupSnap st ⟨name, "official", p.version⟩ with _ | ns <;>
      rcases h3 : lookupSnap st ⟨name, "custom",
        (match sk.customBase with
          | some v => v
          | none => "undefined") ++ "-custom"⟩ with _ | cs <;>
        simp_all

/-- C6 witness: a pending unit whose snapshot directories are all
absent. -/
theorem mergeVersions_missing_inputs_witness :
    (getSkill exStateMissing "s" = some exSkillPend ∧
     exSkillPend.pending = some ⟨"v2", true, false, none⟩ ∧
     exSkillPend.hasCustomChanges = true ∧
     lookupSnap exStateMissing ⟨"s", "official",
       exSkillPend.customBase.getD exSkillPend.officialVersion⟩ = none) ∧
    mergeVersions exStateMissing "s" 0 = (failRes, exStateMissing) :=
  ⟨⟨by decide, by decide, by decide, by decide⟩,
   mergeVersions_missing_inputs exStateMissing "s" 0 exSkillPend
     ⟨"v2", true, false, none⟩ (by decide) (by decide) (by decide)
     (Or.inl (by decide))⟩

/-! ## Claim C7 -/

/-- C7 (confirmed): a merge writes only under the `merged` pool: every
snapshot directory of the `official` or `custom` pools — in particular
the three merge inputs — is byte-identical before and after
`mergeVersions`. -/
theorem mergeVersions_preserves_inputs (st : SvcState) (name : String)
    (now : Nat) (k : SnapKey)
    (h : k.pool = "official" ∨ k.pool = "custom") :
    lookupSnap (mergeVersions st name now).2 k = lookupSnap st k := by
  have hk : ∀ s v : String, (⟨s, "merged", v⟩ : SnapKey) ≠ k := by
    intro s v hkeq
    rcases h with h | h <;> (rw [← hkeq] at h; simp at h)
  rcases hsk : getSkill st name with _ | sk
  · simp [mergeVersions, hsk]
  · rcases hp : sk.pending with _ | p
    · simp [mergeVersions, hsk, hp]
    · by_cases hcc : sk.hasCustomChanges = false
      · simp [mergeVersions, hsk, hp, hcc]
      · simp only [mergeVersions, hsk, hp, if_neg hcc]
        rcases h1 : lookupSnap st
            ⟨name, "official", sk.customBase.getD sk.officialVersion⟩ with _ | bs <;>
          rcases h2 : lookupSnap st ⟨name, "official", p.version⟩ with _ | ns <;>
            rcases h3 : lookupSnap st ⟨name, "custom",
              (match sk.customBase with
                | some v => v
                | none => "undefined") ++ "-custom"⟩ with _ | cs <;>
              simp only [h1, h2, h3] <;> try rfl
        simp only [lookupSnap, saveSkill, setSnap]
        exact lookupA_updateAssoc_ne _ _ (fun hkk => hk _ _ hkk.symm)

/-- C7 witness: the `official` base input of a concrete merge is
unchanged by running the merge. -/
theorem mergeVersions_preserves_inputs_witness :
    ((⟨"s", "official", "v1"⟩ : SnapKey).pool = "official" ∨
     (⟨"s", "official", "v1"⟩ : SnapKey).pool = "custom") ∧
    lookupSnap (mergeVersions exStateOneConflict "s" 9).2
        ⟨"s", "official", "v1"⟩ =
      lookupSnap exStateOneConflict ⟨"s", "official", "v1"⟩ :=
  ⟨Or.inl rfl,
   mergeVersions_preserves_inputs exStateOneConflict "s" 9
     ⟨"s", "official", "v1"⟩ (Or.inl rfl)⟩

/-! ## Claim C8 -/

/-- C8 (confirmed): switching to a `(pool, version)` whose snapshot
directory does not exist fails and changes nothing, while switching to an
existing snapshot returns `true`, repoints the active reference at it and
updates the registered unit's `activeVersion`/`activeType`. -/
theorem switchVersion_spec (st : SvcState) (name version type : String) :
    (lookupSnap st ⟨name, type, version⟩ = none →
      switchVersion st name version type = (false, st)) ∧
    (∀ s, lookupSnap st ⟨name, type, version⟩ = some s →
      (switchVersion st name version type).1 = true ∧
      lookupA name (switchVersion st name version type).2.active =
        some ⟨name, type, version⟩ ∧
      (∀ sk, getSkill st name = some sk → sk.name = name →
        getSkill (switchVersion st name version type).2 name =
          some { sk with activeVersion := version, activeType := type })) := by
  constructor
  · intro h
    simp [switchVersion, h]
  · intro s hs
    simp only [switchVersion, hs]
    have hactive : ∀ st' : SvcState, st'.skills = st.skills →
        st'.active = updateAssoc st.active name ⟨name, type, version⟩ →
        lookupA name st'.active = some (⟨name, type, version⟩ : SnapKey) := by
      intro st' _ ha
      rw [ha]
      exact lookupA_updateAssoc_self _ _ _
    refine ⟨by trivial, ?_, ?_⟩
    · cases hg : getSkill { st with active := updateAssoc st.active name ⟨name, type, version⟩ } name with
      | none => exact lookupA_updateAssoc_self _ _ _
      | some sk => exact lookupA_updateAssoc_self _ _ _
    · intro sk hsk hname
      have hg : getSkill { st with active := updateAssoc st.active name ⟨name, type, version⟩ } name = some sk := hsk
      rw [hg]
      simp only [getSkill, saveSkill]
      rw [hname]
      exact lookupA_updateAssoc_self _ _ _

/-! ## Folded tree updates, unrolled -/

theorem lookupA_some_mem {α β : Type} [DecidableEq α] {a : α} {b : β} :
    ∀ {l : List (α × β)}, lookupA a l = some b → (a, b) ∈ l := by
  intro l
  induction l with
  | nil => intro h; exact absurd h (by simp [lookupA])
  | cons e t ih =>
    intro h
    rw [lookupA] at h
    by_cases he : e.1 = a
    · rw [if_pos he] at h
      injection h with h2
      have he2 : e = (a, b) := Prod.ext he h2
      rw [← he2]
      exact List.mem_cons_self e t
    · rw [if_neg he] at h
      exact List.mem_cons_of_mem _ (ih h)

theorem foldl_updateAssoc_pairs {α β : Type} [DecidableEq α] :
    ∀ (ps : List (α × β)) (t0 : List (α × β)),
      (ps.map Prod.fst).Nodup →
      ps.foldl (fun t e => updateAssoc t e.1 e.2) t0 =
        t0.filter (fun e => decide (e.1 ∉ ps.map Prod.fst)) ++ ps := by
  intro ps
  induction ps with
  | nil => intro t0 _; simp
  | cons e ps ih =>
    intro t0 hnd
    rw [List.map_cons, List.nodup_cons] at hnd
    rw [List.foldl_cons, ih _ hnd.2]
    unfold updateAssoc
    rw [List.filter_append, List.filter_filter]
    have h1 : List.filter (fun x => decide (x.1 ∉ ps.map Prod.fst))
        [(e.1, e.2)] = [(e.1, e.2)] := by
      simp [hnd.1]
    rw [h1]
    have h2 : ∀ x : α × β,
        (decide (x.1 ∉ ps.map Prod.fst) && decide (x.1 ≠ e.1)) =
          decide (x.1 ∉ e.1 :: ps.map Prod.fst) := by
      intro x
      rw [← Bool.decide_and, decide_eq_decide]
      simp only [List.mem_cons, not_or]
      tauto
    rw [List.filter_congr (fun x _ => h2 x), List.append_assoc]
    rfl

theorem foldl_setFile_names (g : String → Content) (fs : List String)
    (t0 : FileTree) (hnd : fs.Nodup) :
    fs.foldl (fun t f => setFile t f (g f)) t0 =
      t0.filter (fun e => decide (e.1 ∉ fs)) ++ fs.map (fun f => (f, g f)) := by
  have hmap : (fs.map (fun f => (f, g f))).map Prod.fst = fs := by
    rw [List.map_map]
    exact List.map_id fs
  calc fs.foldl (fun t f => setFile t f (g f)) t0
      = (fs.map (fun f => (f, g f))).foldl
          (fun t e => updateAssoc t e.1 e.2) t0 := by
        rw [List.foldl_map]
        rfl
    _ = t0.filter (fun e =>
          decide (e.1 ∉ (fs.map (fun f => (f, g f))).map Prod.fst)) ++
          fs.map (fun f => (f, g f)) :=
        foldl_updateAssoc_pairs _ _ (by rw [hmap]; exact hnd)
    _ = t0.filter (fun e => decide (e.1 ∉ fs)) ++
          fs.map (fun f => (f, g f)) := by rw [hmap]

theorem copyTree_nil {src : FileTree} (h : (src.map Prod.fst).Nodup) :
    copyTree src [] = src :=
  foldl_updateAssoc_pairs src [] h

theorem foldl_doMergeFileStep (baseT newT customT : FileTree) :
    ∀ (fs : List String) (t0 : FileTree) (cs0 : List ConflictInfo),
      fs.foldl (doMergeFileStep baseT newT customT) (t0, cs0) =
        (fs.foldl (fun t f =>
            setFile t f (mergeOutTree baseT newT customT f)) t0,
         cs0 ++ fs.filterMap (mergeConflictOf baseT newT customT)) := by
  intro fs
  induction fs with
  | nil => intro t0 cs0; simp
  | cons f fs ih =>
    intro t0 cs0
    rw [List.foldl_cons, List.foldl_cons]
    rcases hcl : (mergeFile (readFileLines baseT f) (readFileLines newT f)
        (readFileLines customT f)).conflictLine with _ | ln <;>
      simp [doMergeFileStep, mergeOutTree, mergeConflictOf, hcl, ih,
        List.filterMap_cons, List.append_assoc]

theorem mergeTrees_eq (baseT newT customT m0 : FileTree) :
    mergeTrees baseT newT customT m0 =
      (((diffDirectories baseT newT customT).modified ++
         (diffDirectories baseT newT customT).conflicts).foldl
          (fun t f => setFile t f (mergeOutTree baseT newT customT f))
          ((diffDirectories baseT newT customT).added.foldl
            (fun t f => setFile t f (readFileLines newT f))
            (copyTree customT m0)),
       ((diffDirectories baseT newT customT).modified ++
         (diffDirectories baseT newT customT).conflicts).filterMap
          (mergeConflictOf baseT newT customT),
       diffDirectories baseT newT customT) := by
  simp only [mergeTrees]
  rw [foldl_doMergeFileStep, foldl_doMergeFileStep]
  simp [List.foldl_append, List.filterMap_append]

theorem mergeTrees_tree_eq (baseT newT customT m0 : FileTree)
    (hadd : (diffDirectories baseT newT customT).added.Nodup)
    (hM : ((diffDirectories baseT newT customT).modified ++
      (diffDirectories baseT newT customT).conflicts).Nodup) :
    (mergeTrees baseT newT customT m0).1 =
      ((copyTree customT m0).filter (fun e =>
          decide (e.1 ∉ (diffDirectories baseT newT customT).added)) ++
        (diffDirectories baseT newT customT).added.map
          (fun f => (f, readFileLines newT f))).filter (fun e =>
          decide (e.1 ∉ ((diffDirectories baseT newT customT).modified ++
            (diffDirectories baseT newT customT).conflicts))) ++
      ((diffDirectories baseT newT customT).modified ++
        (diffDirectories baseT newT customT).conflicts).map
        (fun f => (f, mergeOutTree baseT newT customT f)) := by
  rw [mergeTrees_eq]
  rw [foldl_setFile_names _ _ _ hadd, foldl_setFile_names _ _ _ hM]

/-! ## Claim C2 -/

theorem mergeLineOut_custom_eq_base (b n : String) :
    mergeLineOut b n b = [n] := by
  unfold mergeLineOut
  by_cases hbn : b = n
  · subst hbn
    simp
  · rw [if_neg (by simp), if_neg (by simp), if_pos hbn]

theorem listFlat_singleton {α β : Type} (g : α → β) :
    ∀ L : List α, listFlat (fun i => [g i]) L = L.map g := by
  intro L
  induction L with
  | nil => rfl
  | cons a t ih => simp [listFlat, ih]

theorem range_map_padGet (l : Content) (m : Nat) (h : l.length ≤ m) :
    (List.range m).map (fun i => padGet l i) =
      l ++ List.replicate (m - l.length) "" := by
  apply List.ext_getElem
  · simp; omega
  · intro i h1 h2
    simp only [List.getElem_map, List.getElem_range]
    by_cases hi : i < l.length
    · rw [padGet, List.getElem?_eq_getElem hi, Option.getD_some,
        List.getElem_append_left hi]
    · rw [padGet, List.getElem?_eq_none (by omega), Option.getD_none,
        List.getElem_append_right (by omega)]
      simp

theorem conflictIdxs_custom_eq_base (bl nl : Content) :
    conflictIdxs bl nl bl = [] := by
  rw [conflictIdxs, List.filter_eq_nil_iff]
  intro i _
  simp

theorem mergeFile_custom_eq_base (bl nl : Content) :
    mergeFile bl nl bl =
      ⟨nl ++ List.replicate (bl.length - nl.length) "", none⟩ := by
  have hlen : max bl.length (max nl.length bl.length) - nl.length =
      bl.length - nl.length := by omega
  have hle : nl.length ≤ max bl.length (max nl.length bl.length) := by omega
  have hlines := mergeFile_lines bl nl bl
  have hcl := mergeFile_conflictLine_eq bl nl bl
  rw [conflictIdxs_custom_eq_base] at hcl
  have hflat : listFlat
      (fun i => mergeLineOut (padGet bl i) (padGet nl i) (padGet bl i))
      (List.range (max bl.length (max nl.length bl.length))) =
      (List.range (max bl.length (max nl.length bl.length))).map
        (fun i => padGet nl i) := by
    rw [← listFlat_singleton (fun i => padGet nl i)]
    have : ∀ i : Nat, mergeLineOut (padGet bl i) (padGet nl i) (padGet bl i) =
        [padGet nl i] := fun i => mergeLineOut_custom_eq_base _ _
    simp only [this]
  rw [hflat, range_map_padGet nl _ hle, hlen] at hlines
  cases hout : mergeFile bl nl bl with
  | mk lines cl =>
    rw [hout] at hlines hcl
    simp only [List.getLast?_nil] at hlines hcl
    rw [hlines, hcl]

theorem diff_conflicts_custom_eq_base (baseT newT : FileTree) :
    (diffDirectories baseT newT baseT).conflicts = [] := by
  simp only [diffDirectories]
  rw [List.filter_eq_nil_iff]
  intro f _
  simp

theorem mem_diff_modified_custom_eq_base {baseT newT : FileTree} {f : String} :
    f ∈ (diffDirectories baseT newT baseT).modified ↔
      f ∈ treeFiles baseT ∧ f ∈ treeFiles newT ∧
        readFileLines baseT f ≠ readFileLines newT f := by
  rw [mem_diff_modified]
  simp

theorem lookupA_overlay {β : Type} (X : List (String × β)) (S : List String)
    (g : String → β) (f : String) :
    lookupA f (X.filter (fun e => decide (e.1 ∉ S)) ++
        S.map (fun x => (x, g x))) =
      if f ∈ S then some (g f) else lookupA f X := by
  by_cases hf : f ∈ S
  · rw [lookupA_append_none _ (lookupA_filter_false (fun b => by simp [hf])),
      lookupA_map_pair, if_pos hf, if_pos hf]
  · rw [if_neg hf]
    have hfil : lookupA f (X.filter fun e => decide (e.1 ∉ S)) =
        lookupA f X :=
      lookupA_filter_true (fun b => by simp [hf])
    rcases hX : lookupA f X with _ | v
    · rw [lookupA_append_none (S.map (fun x => (x, g x))) (hfil.trans hX),
        lookupA_map_pair, if_neg hf]
    · rw [lookupA_append_some _ (hfil.trans hX)]

theorem mergeTrees_local_eq_base (baseT newT : FileTree)
    (hndb : (treeFiles baseT).Nodup) (hndn : (treeFiles newT).Nodup)
    (hne : ∀ e ∈ newT, e.2 ≠ ([] : Content)) :
    (mergeTrees baseT newT baseT []).2.1 = [] ∧
    (∀ f ls, lookupFile newT f = some ls →
      lookupFile (mergeTrees baseT newT baseT []).1 f =
        some (ls ++ List.replicate
          ((readFileLines baseT f).length - ls.length) "")) ∧
    (∀ f ls, lookupFile baseT f = some ls → lookupFile newT f = none →
      lookupFile (mergeTrees baseT newT baseT []).1 f = some ls) := by
  have hconf := diff_conflicts_custom_eq_base baseT newT
  have hadd : (diffDirectories baseT newT baseT).added.Nodup :=
    List.Nodup.filter _ hndn
  have hmod : (diffDirectories baseT newT baseT).modified.Nodup :=
    List.Nodup.filter _ hndb
  have hM : ((diffDirectories baseT newT baseT).modified ++
      (diffDirectories baseT newT baseT).conflicts).Nodup := by
    rw [hconf, List.append_nil]; exact hmod
  have hcopy : copyTree baseT [] = baseT := copyTree_nil hndb
  have htree := mergeTrees_tree_eq baseT newT baseT [] hadd hM
  rw [hconf, List.append_nil, hcopy] at htree
  have hlookup : ∀ f, lookupFile (mergeTrees baseT newT baseT []).1 f =
      if f ∈ (diffDirectories baseT newT baseT).modified then
        some (mergeOutTree baseT newT baseT f)
      else if f ∈ (diffDirectories baseT newT baseT).added then
        some (readFileLines newT f)
      else lookupA f baseT := by
    intro f
    unfold lookupFile
    rw [htree, lookupA_overlay, lookupA_overlay]
  refine ⟨?_, ?_, ?_⟩
  · rw [mergeTrees_eq]
    simp only [hconf, List.append_nil]
    rw [List.filterMap_eq_nil_iff]
    intro f _
    unfold mergeConflictOf
    rw [mergeFile_custom_eq_base]
  · intro f ls hf
    have hfn : f ∈ treeFiles newT := by
      by_contra hc
      have hnone : lookupFile newT f = none := lookupA_eq_none_iff.mpr hc
      rw [hf] at hnone
      exact absurd hnone (by simp)
    have hrn : readFileLines newT f = ls := by
      unfold readFileLines
      rw [hf]
      rfl
    have hlspos : 0 < ls.length := by
      have hmem := lookupA_some_mem (l := newT) hf
      have hnn := hne (f, ls) hmem
      simp only at hnn
      exact List.length_pos.mpr hnn
    rw [hlookup]
    by_cases hfb : f ∈ treeFiles baseT
    · by_cases hch : readFileLines baseT f = readFileLines newT f
      · rw [if_neg (by rw [mem_diff_modified_custom_eq_base]; tauto),
          if_neg (by rw [mem_diff_added]; tauto)]
        obtain ⟨bls, hbls⟩ : ∃ bls, lookupA f baseT = some bls := by
          rcases hb : lookupA f baseT with _ | v
          · exact absurd (lookupA_eq_none_iff.mp hb) (not_not.mpr hfb)
          · exact ⟨v, rfl⟩
        have hrb : readFileLines baseT f = bls := by
          unfold readFileLines lookupFile
          rw [hbls]
          rfl
        have hbl : bls = ls := by
          rw [hrb, hrn] at hch
          exact hch
        rw [hbls, hbl, hrb, hbl]
        have hz : ls.length - ls.length = 0 := by omega
        rw [hz]
        simp
      · rw [if_pos (by rw [mem_diff_modified_custom_eq_base]; exact ⟨hfb, hfn, hch⟩)]
        unfold mergeOutTree
        rw [mergeFile_custom_eq_base]
        simp only
        rw [hrn]
    · rw [if_neg (by rw [mem_diff_modified_custom_eq_base]; tauto),
        if_pos (by rw [mem_diff_added]; exact ⟨hfn, hfb⟩), hrn]
      have hrb : readFileLines baseT f = [""] := by
        unfold readFileLines
        rw [show lookupFile baseT f = none from lookupA_eq_none_iff.mpr hfb]
        rfl
      rw [hrb]
      have hz : ([""] : Content).length - ls.length = 0 := by
        simp only [List.length_cons, List.length_nil]
        omega
      rw [hz]
      simp
  · intro f ls hfb hfn
    rw [hlookup]
    have hfnin : f ∉ treeFiles newT := by
      intro hc
      obtain ⟨e, he, hee⟩ := List.mem_map.mp hc
      have hnn : lookupA f newT ≠ none := by
        rw [← hee]
        exact lookupA_ne_none_of_mem
          (by rw [show ((e.1 : String), e.2) = e from rfl]; exact he)
      exact hnn hfn
    rw [if_neg (by rw [mem_diff_modified_custom_eq_base]; tauto),
      if_neg (by rw [mem_diff_added]; tauto)]
    exact hfb

theorem mergeVersions_success_eq (st : SvcState) (name : String) (now : Nat)
    (sk : Skill) (p : PendingVersion) (bs ns cs : Snapshot)
    (hsk : getSkill st name = some sk) (hp : sk.pending = some p)
    (hcc : sk.hasCustomChanges = true)
    (hbs : lookupSnap st
      ⟨name, "official", sk.customBase.getD sk.officialVersion⟩ = some bs)
    (hns : lookupSnap st ⟨name, "official", p.version⟩ = some ns)
    (hcs : lookupSnap st ⟨name, "custom",
      (match sk.customBase with
        | some v => v
        | none => "undefined") ++ "-custom"⟩ = some cs) :
    mergeVersions st name now =
      ({ success := decide ((mergeTrees bs.tree ns.tree cs.tree
            (getTreeOrEmpty st ⟨name, "merged", p.version ++ "-merged"⟩)).2.1.length = 0),
         conflicts := (mergeTrees bs.tree ns.tree cs.tree
            (getTreeOrEmpty st ⟨name, "merged", p.version ++ "-merged"⟩)).2.1,
         mergedVersion := p.version ++ "-merged",
         addedFiles := (mergeTrees bs.tree ns.tree cs.tree
            (getTreeOrEmpty st ⟨name, "merged", p.version ++ "-merged"⟩)).2.2.added,
         modifiedFiles := (mergeTrees bs.tree ns.tree cs.tree
            (getTreeOrEmpty st ⟨name, "merged", p.version ++ "-merged"⟩)).2.2.modified },
       saveSkill (setSnap st ⟨name, "merged", p.version ++ "-merged"⟩
           ⟨(mergeTrees bs.tree ns.tree cs.tree
              (getTreeOrEmpty st ⟨name, "merged", p.version ++ "-merged"⟩)).1,
            (match lookupSnap st ⟨name, "merged", p.version ++ "-merged"⟩ with
            | some s => s.createdAt
            | none => now)⟩)
         { sk with pending :=
                     some { p with merged := true,
                                   mergedVersion :=
                                     some (p.version ++ "-merged") } }) := by
  simp only [mergeVersions, hsk, hp, hcc, hbs, hns, hcs]
  rw [if_neg (by simp)]

/-- C2 (corrected): merging with the local (custom) tree byte-identical
to the base produces zero conflicts and `success = true`, but the merged
content is not byte-identical to upstream in general: a file present in
upstream ends up with the upstream lines padded by trailing empty lines
up to the base file's line count (content equality therefore holds
exactly when the base file has no more lines than the upstream file), and
files deleted upstream survive in the merged snapshot with their base
content. -/
theorem mergeVersions_local_eq_base_amended
    (st : SvcState) (name : String) (now : Nat)
    (sk : Skill) (p : PendingVersion) (bs ns cs : Snapshot)
    (hsk : getSkill st name = some sk) (hp : sk.pending = some p)
    (hcc : sk.hasCustomChanges = true)
    (hbs : lookupSnap st
      ⟨name, "official", sk.customBase.getD sk.officialVersion⟩ = some bs)
    (hns : lookupSnap st ⟨name, "official", p.version⟩ = some ns)
    (hcs : lookupSnap st ⟨name, "custom",
      (match sk.customBase with
        | some v => v
        | none => "undefined") ++ "-custom"⟩ = some cs)
    (heq : cs.tree = bs.tree)
    (hm0 : lookupSnap st ⟨name, "merged", p.version ++ "-merged"⟩ = none)
    (hndb : (treeFiles bs.tree).Nodup) (hndn : (treeFiles ns.tree).Nodup)
    (hne : ∀ e ∈ ns.tree, e.2 ≠ ([] : Content)) :
    (mergeVersions st name now).1.success = true ∧
    (mergeVersions st name now).1.conflicts = [] ∧
    (∀ f ls, lookupFile ns.tree f = some ls →
      lookupFile (getTreeOrEmpty (mergeVersions st name now).2
          ⟨name, "merged", p.version ++ "-merged"⟩) f =
        some (ls ++ List.replicate
          ((readFileLines bs.tree f).length - ls.length) "")) ∧
    (∀ f ls, lookupFile bs.tree f = some ls → lookupFile ns.tree f = none →
      lookupFile (getTreeOrEmpty (mergeVersions st name now).2
          ⟨name, "merged", p.version ++ "-merged"⟩) f = some ls) := by
  have hget0 : getTreeOrEmpty st ⟨name, "merged", p.version ++ "-merged"⟩ =
      ([] : FileTree) := by
    unfold getTreeOrEmpty
    rw [hm0]
  have hred := mergeVersions_success_eq st name now sk p bs ns cs
    hsk hp hcc hbs hns hcs
  rw [hget0, heq] at hred
  have hcore := mergeTrees_local_eq_base bs.tree ns.tree hndb hndn hne
  have htree2 : getTreeOrEmpty (mergeVersions st name now).2
      ⟨name, "merged", p.version ++ "-merged"⟩ =
      (mergeTrees bs.tree ns.tree bs.tree []).1 := by
    rw [hred]
    unfold getTreeOrEmpty lookupSnap saveSkill setSnap
    simp only
    rw [lookupA_updateAssoc_self]
  refine ⟨?_, ?_, ?_, ?_⟩
  · rw [hred]
    simp only
    rw [hcore.1]
    rfl
  · rw [hred]
    simp only
    exact hcore.1
  · intro f ls hf
    rw [htree2]
    exact hcore.2.1 f ls hf
  · intro f ls hfb hfn
    rw [htree2]
    exact hcore.2.2 f ls hfb hfn

/-- C2 witness: a concrete merge whose custom tree equals the base tree,
with base `["a", "b"]` and upstream `["a"]` in file `"f"`. -/
theorem mergeVersions_local_eq_base_amended_witness :
    (getSkill exStateLocalBase "s" = some exSkillPend ∧
     lookupSnap exStateLocalBase ⟨"s", "official", "v2"⟩ =
       some ⟨[("f", ["a"])], 2⟩ ∧
     lookupFile ([("f", ["a"])] : FileTree) "f" = some ["a"]) ∧
    ((mergeVersions exStateLocalBase "s" 9).1.success = true ∧
     (mergeVersions exStateLocalBase "s" 9).1.conflicts = [] ∧
     lookupFile (getTreeOrEmpty (mergeVersions exStateLocalBase "s" 9).2
         ⟨"s", "merged", "v2-merged"⟩) "f" =
       some (["a"] ++ List.replicate
         ((readFileLines ([("f", ["a", "b"])] : FileTree) "f").length -
           (["a"] : Content).length) "")) := by
  have h := mergeVersions_local_eq_base_amended exStateLocalBase "s" 9
    exSkillPend ⟨"v2", true, false, none⟩
    ⟨[("f", ["a", "b"])], 1⟩ ⟨[("f", ["a"])], 2⟩ ⟨[("f", ["a", "b"])], 3⟩
    (by decide) (by decide) (by decide) (by decide) (by decide) (by decide)
    (by decide) (by decide) (by decide) (by decide) (by decide)
  exact ⟨⟨by decide, by decide, by decide⟩,
    h.1, h.2.1, h.2.2.1 "f" ["a"] (by decide)⟩

/-- C2 counterexample: the same concrete merge has zero conflicts, yet
the merged content of `"f"` is `["a", ""]` — the upstream content
`["a"]` plus a padding empty line — so the merged file is NOT equal to
the upstream file, refuting "every file in the resulting merged snapshot
has content equal to the corresponding upstream file". -/
theorem mergeVersions_local_eq_base_padding_cex :
    (mergeVersions exStateLocalBase "s" 9).1.conflicts = [] ∧
    lookupFile (getTreeOrEmpty (mergeVersions exStateLocalBase "s" 9).2
        ⟨"s", "merged", "v2-merged"⟩) "f" = some ["a", ""] ∧
    lookupFile (getTreeOrEmpty exStateLocalBase ⟨"s", "official", "v2"⟩) "f" =
      some ["a"] ∧
    (["a", ""] : Content) ≠ ["a"] := by
  decide


/-! ## Claim C9 -/

theorem mem_insertByTime {a x : VersionInfo} : ∀ {l : List VersionInfo},
    a ∈ insertByTime x l ↔ a = x ∨ a ∈ l := by
  intro l
  induction l with
  | nil => simp [insertByTime]
  | cons b t ih =>
    unfold insertByTime
    by_cases hc : b.createdAt ≤ x.createdAt
    · simp [hc]
    · rw [if_neg hc]
      simp only [List.mem_cons, ih]
      tauto

theorem mem_sortByTime {a : VersionInfo} : ∀ {l : List VersionInfo},
    a ∈ sortByTime l ↔ a ∈ l := by
  intro l
  induction l with
  | nil => simp [sortByTime]
  | cons x t ih => simp [sortByTime, mem_insertByTime, ih]

theorem poolVersions_snap_exists {st : SvcState} {name pool : String}
    {v : VersionInfo} (h : v ∈ poolVersions st name pool) :
    lookupSnap st ⟨name, v.type, v.version⟩ ≠ none := by
  unfold poolVersions at h
  rw [List.mem_filterMap] at h
  obtain ⟨e, he, hveq⟩ := h
  obtain ⟨⟨s, pl, vv⟩, snp⟩ := e
  by_cases hcond : SnapKey.skill ⟨s, pl, vv⟩ = name ∧ SnapKey.pool ⟨s, pl, vv⟩ = pool
  · rw [if_pos hcond] at hveq
    obtain ⟨hs, hpl⟩ := hcond
    simp only at hs hpl
    subst hs hpl
    have hv := Option.some.inj hveq
    rw [← hv]
    exact lookupA_ne_none_of_mem he
  · rw [if_neg hcond] at hveq
    exact absurd hveq (by simp)

theorem getVersions_snap_exists {st : SvcState} {name : String}
    {v : VersionInfo} (h : v ∈ getVersions st name) :
    lookupSnap st ⟨name, v.type, v.version⟩ ≠ none := by
  rw [getVersions, mem_sortByTime] at h
  rcases List.mem_append.mp h with h' | h'
  · rcases List.mem_append.mp h' with h'' | h''
    · exact poolVersions_snap_exists h''
    · exact poolVersions_snap_exists h''
  · exact poolVersions_snap_exists h'

theorem switchVersion_found (st : SvcState) (name version type : String)
    (s : Snapshot) (hs : lookupSnap st ⟨name, type, version⟩ = some s) :
    (switchVersion st name version type).1 = true ∧
    lookupA name (switchVersion st name version type).2.active =
      some (⟨name, type, version⟩ : SnapKey) := by
  simp only [switchVersion, hs]
  refine ⟨by trivial, ?_⟩
  cases getSkill { st with
      active := updateAssoc st.active name ⟨name, type, version⟩ } name with
  | none => exact lookupA_updateAssoc_self _ _ _
  | some sk => exact lookupA_updateAssoc_self _ _ _

/-- C9 (corrected): `rollbackVersion` does not retrace the history of
`switchTo` calls — it steps down the creation-time-descending snapshot
list.  When the active snapshot has a next-older snapshot it switches to
that snapshot (returning `true` and repointing the active reference);
when no entry is active or the active snapshot is the oldest it fails
with the state unchanged.  Hence N rollbacks after N switches restore the
original active snapshot only when each pre-switch snapshot happens to be
the next-older one in creation order. -/
theorem rollback_creation_order_amended (st : SvcState) (name : String) :
    ((getVersions st name).findIdx? (fun v => v.isActive) = none →
      rollbackVersion st name = (false, st)) ∧
    (∀ i, (getVersions st name).findIdx? (fun v => v.isActive) = some i →
      (getVersions st name).length ≤ i + 1 →
      rollbackVersion st name = (false, st)) ∧
    (∀ i prev, (getVersions st name).findIdx? (fun v => v.isActive) = some i →
      (getVersions st name)[i + 1]? = some prev →
      rollbackVersion st name = switchVersion st name prev.version prev.type ∧
      (rollbackVersion st name).1 = true ∧
      lookupA name (rollbackVersion st name).2.active =
        some ⟨name, prev.type, prev.version⟩) := by
  refine ⟨?_, ?_, ?_⟩
  · intro h; simp [rollbackVersion, h]
  · intro i h hle; simp [rollbackVersion, h, hle]
  · intro i prev h hget
    have hlt : i + 1 < (getVersions st name).length := by
      rw [List.getElem?_eq_some] at hget; exact hget.1
    have hmem : prev ∈ getVersions st name := by
      rw [List.getElem?_eq_some] at hget
      obtain ⟨hl, he⟩ := hget
      exact he ▸ List.getElem_mem hl
    obtain ⟨s, hs⟩ :=
      Option.ne_none_iff_exists'.mp (getVersions_snap_exists hmem)
    have hroll : rollbackVersion st name =
        switchVersion st name prev.version prev.type := by
      simp [rollbackVersion, h, Nat.not_le.mpr hlt, hget]
    have hfound := switchVersion_found st name prev.version prev.type s hs
    exact ⟨hroll, by rw [hroll]; exact hfound.1, by rw [hroll]; exact hfound.2⟩

/-- C9 witness: in the two-snapshot state active at the newest snapshot,
one rollback switches to the next-older official `v1`. -/
theorem rollback_creation_order_amended_witness :
    ((getVersions exState "s").findIdx? (fun v => v.isActive) = some 0 ∧
     (getVersions exState "s")[0 + 1]? =
       some ⟨"v1", "official", 1, false⟩) ∧
    ((rollbackVersion exState "s").1 = true ∧
     lookupA "s" (rollbackVersion exState "s").2.active =
       some ⟨"s", "official", "v1"⟩) := by
  have h := (rollback_creation_order_amended exState "s").2.2 0
    ⟨"v1", "official", 1, false⟩ (by decide) (by decide)
  exact ⟨⟨by decide, by decide⟩, h.2.1, h.2.2⟩

/-- C9 counterexample (N = 1): with official snapshots `v1` (older) and
`v2` (newer) and `v2` active, one `switchTo` to `v1` succeeds, but the
first rollback already fails — `v1` is the oldest snapshot in creation
order — leaving `v1` active instead of restoring the pre-switch `v2`. -/
theorem rollback_not_inverse_cex :
    lookupA "s" exState.active = some ⟨"s", "official", "v2"⟩ ∧
    (switchVersion exState "s" "v1" "official").1 = true ∧
    rollbackVersion (switchVersion exState "s" "v1" "official").2 "s" =
      (false, (switchVersion exState "s" "v1" "official").2) ∧
    lookupA "s" (switchVersion exState "s" "v1" "official").2.active =
      some ⟨"s", "official", "v1"⟩ := by
  decide

/-! ## Claim C10 -/

/-- C10 (confirmed): `resolveConflict` returns `false` and modifies
nothing when the unit is unregistered, when it has no pending merged
version, when the merged snapshot directory is missing, or when the named
file does not exist in it; on success it returns `true` and rewrites
exactly the named file of the merged snapshot — its new content is the
old content with every conflict-marker triple replaced according to the
choice — leaving every other file, every other snapshot, the registry and
the active references untouched. -/
theorem resolveConflict_spec (st : SvcState) (name file choice : String) :
    (getSkill st name = none →
      resolveConflict st name file choice = (false, st)) ∧
    (∀ sk, getSkill st name = some sk → sk.pending = none →
      resolveConflict st name file choice = (false, st)) ∧
    (∀ sk p, getSkill st name = some sk → sk.pending = some p →
      p.mergedVersion = none →
      resolveConflict st name file choice = (false, st)) ∧
    (∀ sk p mv, getSkill st name = some sk → sk.pending = some p →
      p.mergedVersion = some mv →
      lookupSnap st ⟨name, "merged", mv⟩ = none →
      resolveConflict st name file choice = (false, st)) ∧
    (∀ sk p mv snap, getSkill st name = some sk → sk.pending = some p →
      p.mergedVersion = some mv →
      lookupSnap st ⟨name, "merged", mv⟩ = some snap →
      lookupFile snap.tree file = none →
      resolveConflict st name file choice = (false, st)) ∧
    (∀ sk p mv snap ls, getSkill st name = some sk → sk.pending = some p →
      p.mergedVersion = some mv →
      lookupSnap st ⟨name, "merged", mv⟩ = some snap →
      lookupFile snap.tree file = some ls →
      (resolveConflict st name file choice).1 = true ∧
      (resolveConflict st name file choice).2.skills = st.skills ∧
      (resolveConflict st name file choice).2.active = st.active ∧
      (∀ k : SnapKey, k ≠ ⟨name, "merged", mv⟩ →
        lookupSnap (resolveConflict st name file choice).2 k =
          lookupSnap st k) ∧
      lookupSnap (resolveConflict st name file choice).2 ⟨name, "merged", mv⟩ =
        some ⟨setFile snap.tree file (resolveLines choice ls), snap.createdAt⟩ ∧
      (∀ g, g ≠ file →
        lookupFile (setFile snap.tree file (resolveLines choice ls)) g =
          lookupFile snap.tree g) ∧
      lookupFile (setFile snap.tree file (resolveLines choice ls)) file =
        some (resolveLines choice ls)) := by
  refine ⟨?_, ?_, ?_, ?_, ?_, ?_⟩
  · intro h; simp [resolveConflict, h]
  · intro sk h1 h2; simp [resolveConflict, h1, h2]
  · intro sk p h1 h2 h3; simp [resolveConflict, h1, h2, h3]
  · intro sk p mv h1 h2 h3 h4; simp [resolveConflict, h1, h2, h3, h4]
  · intro sk p mv snap h1 h2 h3 h4 h5
    simp [resolveConflict, h1, h2, h3, h4, h5]
  · intro sk p mv snap ls h1 h2 h3 h4 h5
    have hred : resolveConflict st name file choice =
        (true, setSnap st ⟨name, "merged", mv⟩
          ⟨setFile snap.tree file (resolveLines choice ls), snap.createdAt⟩) := by
      simp [resolveConflict, h1, h2, h3, h4, h5]
    rw [hred]
    refine ⟨rfl, rfl, rfl, ?_, ?_, ?_, ?_⟩
    · intro k hkne
      simp only [lookupSnap, setSnap]
      exact lookupA_updateAssoc_ne _ _ hkne
    · simp only [lookupSnap, setSnap]
      exact lookupA_updateAssoc_self _ _ _
    · intro g hg
      simp only [lookupFile, setFile]
      exact lookupA_updateAssoc_ne _ _ hg
    · simp only [lookupFile, setFile]
      exact lookupA_updateAssoc_self _ _ _

/-- C10 witness: resolving the one conflict block of file `"f"` in a
concrete merged snapshot with choice `"official"`. -/
theorem resolveConflict_spec_witness :
    (getSkill exStateResolved "s" = some exSkillMerged ∧
     lookupFile ([("f", [markerOpen, "B", markerSep, "C", markerClose]),
       ("g", ["ok"])] : FileTree) "f" =
         some [markerOpen, "B", markerSep, "C", markerClose]) ∧
    (resolveConflict exStateResolved "s" "f" "official").1 = true ∧
    lookupSnap (resolveConflict exStateResolved "s" "f" "official").2
        ⟨"s", "merged", "v2-merged"⟩ =
      some ⟨setFile [("f", [markerOpen, "B", markerSep, "C", markerClose]),
          ("g", ["ok"])] "f"
          (resolveLines "official" [markerOpen, "B", markerSep, "C", markerClose]),
        4⟩ ∧
    resolveLines "official" [markerOpen, "B", markerSep, "C", markerClose] =
      ["B"] ∧
    lookupFile (setFile [("f", [markerOpen, "B", markerSep, "C", markerClose]),
        ("g", ["ok"])] "f"
        (resolveLines "official" [markerOpen, "B", markerSep, "C", markerClose]))
      "g" = some ["ok"] := by
  have h := (resolveConflict_spec exStateResolved "s" "f" "official").2.2.2.2.2
    exSkillMerged ⟨"v2", true, true, some "v2-merged"⟩ "v2-merged"
    ⟨[("f", [markerOpen, "B", markerSep, "C", markerClose]), ("g", ["ok"])], 4⟩
    [markerOpen, "B", markerSep, "C", markerClose]
    (by decide) (by decide) (by decide) (by decide) (by decide)
  exact ⟨⟨by decide, by decide⟩, h.1, h.2.2.2.2.1, by decide,
    h.2.2.2.2.2.1 "g" (by decide)⟩

/-! ## Claim C4: marker counting -/

theorem countP_listFlat {α β : Type} (p : β → Bool) (g : α → List β) :
    ∀ L : List α, (listFlat g L).countP p =
      (L.map (fun a => (g a).countP p)).sum := by
  intro L
  induction L with
  | nil => rfl
  | cons a t ih => simp [listFlat, List.countP_append, ih]

theorem sum_map_ite_one {P : Nat → Prop} [DecidablePred P] :
    ∀ L : List Nat, (L.map (fun i => if P i then 1 else 0)).sum =
      (L.filter (fun i => decide (P i))).length := by
  intro L
  induction L with
  | nil => rfl
  | cons i t ih =>
    by_cases hi : P i
    · simp [List.filter_cons, hi, ih]
      omega
    · simp [List.filter_cons, hi, ih]

theorem markerFree_padGet {ls : Content} (h : markerFree ls) (i : Nat) :
    strIncludes (padGet ls i) markerOpenPat = false ∧
      strIncludes (padGet ls i) markerClosePat = false := by
  unfold padGet
  rcases hg : ls[i]? with _ | l
  · exact ⟨by decide, by decide⟩
  · have hmem : l ∈ ls := by
      rw [List.getElem?_eq_some] at hg
      obtain ⟨hlt, he⟩ := hg
      exact he ▸ List.getElem_mem hlt
    exact h l hmem

theorem countP_mergeLineOut_open (b n c : String)
    (hb : strIncludes b markerOpenPat = false)
    (hn : strIncludes n markerOpenPat = false)
    (hc : strIncludes c markerOpenPat = false) :
    (mergeLineOut b n c).countP (fun l => strIncludes l markerOpenPat) =
      if b ≠ n ∧ b ≠ c ∧ n ≠ c then 1 else 0 := by
  have h1 : strIncludes markerOpen markerOpenPat = true := by decide
  have h2 : strIncludes markerSep markerOpenPat = false := by decide
  have h3 : strIncludes markerClose markerOpenPat = false := by decide
  unfold mergeLineOut
  split_ifs <;> simp [List.countP_cons, hb, hn, hc, h1, h2, h3]

theorem countP_mergeLineOut_close (b n c : String)
    (hb : strIncludes b markerClosePat = false)
    (hn : strIncludes n markerClosePat = false)
    (hc : strIncludes c markerClosePat = false) :
    (mergeLineOut b n c).countP (fun l => strIncludes l markerClosePat) =
      if b ≠ n ∧ b ≠ c ∧ n ≠ c then 1 else 0 := by
  have h1 : strIncludes markerOpen markerClosePat = false := by decide
  have h2 : strIncludes markerSep markerClosePat = false := by decide
  have h3 : strIncludes markerClose markerClosePat = true := by decide
  unfold mergeLineOut
  split_ifs <;> simp [List.countP_cons, hb, hn, hc, h1, h2, h3]

theorem countP_mergeFile_open (bl nl cl : Content)
    (hb : markerFree bl) (hn : markerFree nl) (hc : markerFree cl) :
    (mergeFile bl nl cl).lines.countP
        (fun l => strIncludes l markerOpenPat) =
      (conflictIdxs bl nl cl).length := by
  rw [mergeFile_lines, countP_listFlat]
  rw [List.map_congr_left (fun i _ =>
    countP_mergeLineOut_open (padGet bl i) (padGet nl i) (padGet cl i)
      (markerFree_padGet hb i).1 (markerFree_padGet hn i).1
      (markerFree_padGet hc i).1)]
  exact sum_map_ite_one _

theorem countP_mergeFile_close (bl nl cl : Content)
    (hb : markerFree bl) (hn : markerFree nl) (hc : markerFree cl) :
    (mergeFile bl nl cl).lines.countP
        (fun l => strIncludes l markerClosePat) =
      (conflictIdxs bl nl cl).length := by
  rw [mergeFile_lines, countP_listFlat]
  rw [List.map_congr_left (fun i _ =>
    countP_mergeLineOut_close (padGet bl i) (padGet nl i) (padGet cl i)
      (markerFree_padGet hb i).2 (markerFree_padGet hn i).2
      (markerFree_padGet hc i).2)]
  exact sum_map_ite_one _

theorem any_eq_countP_ne (p : String → Bool) (l : List String) :
    l.any p = decide (l.countP p ≠ 0) := by
  rcases h : l.any p with _ | _
  · have hall : ∀ a ∈ l, ¬ p a := by
      intro a ha hp
      have : l.any p = true := List.any_eq_true.mpr ⟨a, ha, hp⟩
      rw [h] at this
      exact absurd this (by simp)
    have : l.countP p = 0 := List.countP_eq_zero.mpr hall
    simp [this]
  · obtain ⟨a, ha, hp⟩ := List.any_eq_true.mp h
    have : 0 < l.countP p := List.countP_pos.mpr ⟨a, ha, hp⟩
    have hne : l.countP p ≠ 0 := by omega
    simp [hne]

theorem fileMarkerEntries_length (f : String) (ls : Content) :
    (fileMarkerEntries f ls).length =
      if ((ls.any fun l => strIncludes l markerOpenPat) &&
          (ls.any fun l => strIncludes l markerClosePat)) = true then
        ls.countP (fun l => strIncludes l markerOpenPat)
      else 0 := by
  have haux : ∀ (ls' : List String) (n : Nat),
      ((List.enumFrom n ls').filterMap fun e =>
        if strIncludes e.2 markerOpenPat then
          some (⟨f, e.1 + 1, [""], [""], false⟩ : ConflictInfo)
        else none).length =
      ls'.countP (fun l => strIncludes l markerOpenPat) := by
    intro ls'
    induction ls' with
    | nil => intro n; rfl
    | cons l t ih =>
      intro n
      rw [List.enumFrom_cons, List.filterMap_cons]
      rcases hp : strIncludes l markerOpenPat with _ | _
      · simp [hp, ih, List.countP_cons]
      · simp [hp, ih, List.countP_cons]
  unfold fileMarkerEntries
  by_cases hg : ((ls.any fun l => strIncludes l markerOpenPat) &&
      (ls.any fun l => strIncludes l markerClosePat)) = true
  · rw [if_pos hg, if_pos hg]
    exact haux ls 0
  · rw [if_neg hg, if_neg hg]
    rfl

theorem fileMarkerEntries_mergeFile (f : String) (bl nl cl : Content)
    (hb : markerFree bl) (hn : markerFree nl) (hc : markerFree cl) :
    (fileMarkerEntries f (mergeFile bl nl cl).lines).length =
      (conflictIdxs bl nl cl).length := by
  rw [fileMarkerEntries_length, countP_mergeFile_open bl nl cl hb hn hc,
    any_eq_countP_ne, any_eq_countP_ne,
    countP_mergeFile_open bl nl cl hb hn hc,
    countP_mergeFile_close bl nl cl hb hn hc]
  by_cases hk : (conflictIdxs bl nl cl).length = 0
  · simp [hk]
  · simp [hk]

theorem fileMarkerEntries_markerFree (f : String) (ls : Content)
    (h : markerFree ls) : fileMarkerEntries f ls = [] := by
  unfold fileMarkerEntries
  rw [if_neg]
  intro hgate
  obtain ⟨ho, _⟩ := Bool.and_eq_true_iff.mp hgate
  obtain ⟨l, hl, hp⟩ := List.any_eq_true.mp ho
  rw [(h l hl).1] at hp
  exact absurd hp (by simp)

theorem mergeFile_conflictLine_ne_iff (bl nl cl : Content) :
    (mergeFile bl nl cl).conflictLine ≠ none ↔
      (conflictIdxs bl nl cl).length ≠ 0 := by
  rw [mergeFile_conflictLine_eq]
  rcases h : (conflictIdxs bl nl cl).getLast? with _ | j
  · rw [List.getLast?_eq_none_iff] at h
    simp [h]
  · have hne : conflictIdxs bl nl cl ≠ [] := by
      intro hnil
      rw [hnil] at h
      exact absurd h (by simp)
    have : (conflictIdxs bl nl cl).length ≠ 0 := by
      intro h0
      exact hne (List.length_eq_zero.mp h0)
    simp [this]

theorem length_filterMap_mergeConflictOf (b n c : FileTree) :
    ∀ fs : List String,
      (fs.filterMap (mergeConflictOf b n c)).length =
        fs.countP (fun f => decide ((conflictIdxs (readFileLines b f)
          (readFileLines n f) (readFileLines c f)).length ≠ 0)) := by
  intro fs
  induction fs with
  | nil => rfl
  | cons f t ih =>
    rw [List.filterMap_cons, List.countP_cons]
    rcases hcl : (mergeFile (readFileLines b f) (readFileLines n f)
        (readFileLines c f)).conflictLine with _ | ln
    · have h0 : ¬ (conflictIdxs (readFileLines b f) (readFileLines n f)
          (readFileLines c f)).length ≠ 0 := by
        intro hne
        exact ((mergeFile_conflictLine_ne_iff _ _ _).mpr hne) hcl
      simp [mergeConflictOf, hcl, ih, h0]
    · have h1 : (conflictIdxs (readFileLines b f) (readFileLines n f)
          (readFileLines c f)).length ≠ 0 :=
        (mergeFile_conflictLine_ne_iff _ _ _).mp (by rw [hcl]; simp)
      simp [mergeConflictOf, hcl, ih, h1]

theorem sum_map_eq_countP_pos (k : String → Nat) :
    ∀ fs : List String, (∀ f ∈ fs, k f ≤ 1) →
      (fs.map k).sum = fs.countP (fun f => decide (k f ≠ 0)) := by
  intro fs
  induction fs with
  | nil => intro _; rfl
  | cons f t ih =>
    intro h
    rw [List.map_cons, List.sum_cons, List.countP_cons,
      ih (fun g hg => h g (List.mem_cons_of_mem _ hg))]
    have hf := h f (List.mem_cons_self _ _)
    by_cases h0 : k f = 0
    · simp [h0]
    · have h1 : k f = 1 := by omega
      simp [h1]
      omega

theorem conflictIdxs_singleton_le_one (key : String) (c1 c2 c3 : Content)
    (h : (conflictIdxs c1 c2 c3).length ≤ 1) (f : String) :
    (conflictIdxs (readFileLines [(key, c1)] f) (readFileLines [(key, c2)] f)
      (readFileLines [(key, c3)] f)).length ≤ 1 := by
  by_cases hf : key = f
  · subst hf
    have hr : ∀ c : Content, readFileLines [(key, c)] key = c := by
      intro c
      simp [readFileLines, lookupFile, lookupA]
    rw [hr, hr, hr]
    exact h
  · have hr : ∀ c : Content, readFileLines [(key, c)] f = [""] := by
      intro c
      simp [readFileLines, lookupFile, lookupA, hf]
    rw [hr, hr, hr]
    rw [show conflictIdxs [""] [""] [""] = [] from by decide]
    simp

theorem markerFree_readFileLines (t : FileTree)
    (hmf : ∀ e ∈ t, markerFree e.2) (f : String) :
    markerFree (readFileLines t f) := by
  unfold readFileLines
  rcases hl : lookupFile t f with _ | ls
  · intro l hl'
    simp only [Option.getD_none] at hl'
    rcases List.mem_singleton.mp hl' with rfl
    exact ⟨by decide, by decide⟩
  · have hmem := lookupA_some_mem (l := t) hl
    intro l hl'
    simp only [Option.getD_some] at hl'
    exact hmf (f, ls) hmem l hl'

/-- C4 (corrected, amended): whenever no input file itself contains
conflict-marker text and every conflicted file has at most one
conflicting line index, the number of conflicts reported by `merge`
equals the number reported by a subsequent `getConflicts` on the merged
snapshot.  Without the at-most-one restriction the counts differ:
`mergeVersions` reports at most ONE conflict per file (the last
conflicting line), while `getConflicts` reports one entry per
conflict-marker line. -/
theorem mergeVersions_getConflicts_count_amended
    (st : SvcState) (name : String) (now : Nat)
    (sk : Skill) (p : PendingVersion) (bs ns cs : Snapshot)
    (hsk : getSkill st name = some sk) (hname : sk.name = name)
    (hp : sk.pending = some p) (hcc : sk.hasCustomChanges = true)
    (hbs : lookupSnap st
      ⟨name, "official", sk.customBase.getD sk.officialVersion⟩ = some bs)
    (hns : lookupSnap st ⟨name, "official", p.version⟩ = some ns)
    (hcs : lookupSnap st ⟨name, "custom",
      (match sk.customBase with
        | some v => v
        | none => "undefined") ++ "-custom"⟩ = some cs)
    (hm0 : lookupSnap st ⟨name, "merged", p.version ++ "-merged"⟩ = none)
    (hndb : (treeFiles bs.tree).Nodup) (hndn : (treeFiles ns.tree).Nodup)
    (hndc : (treeFiles cs.tree).Nodup)
    (hmfb : ∀ e ∈ bs.tree, markerFree e.2)
    (hmfn : ∀ e ∈ ns.tree, markerFree e.2)
    (hmfc : ∀ e ∈ cs.tree, markerFree e.2)
    (hle1 : ∀ f : String, (conflictIdxs (readFileLines bs.tree f)
      (readFileLines ns.tree f) (readFileLines cs.tree f)).length ≤ 1) :
    ((mergeVersions st name now).1.conflicts).length =
      (getConflicts (mergeVersions st name now).2 name).length := by
  subst hname
  have hget0 : getTreeOrEmpty st
      ⟨sk.name, "merged", p.version ++ "-merged"⟩ = ([] : FileTree) := by
    unfold getTreeOrEmpty
    rw [hm0]
  have hred := mergeVersions_success_eq st sk.name now sk p bs ns cs
    hsk hp hcc hbs hns hcs
  rw [hget0] at hred
  have hadd : (diffDirectories bs.tree ns.tree cs.tree).added.Nodup :=
    List.Nodup.filter _ hndn
  have hmodnd : (diffDirectories bs.tree ns.tree cs.tree).modified.Nodup :=
    List.Nodup.filter _ hndb
  have hconfnd : (diffDirectories bs.tree ns.tree cs.tree).conflicts.Nodup :=
    List.Nodup.filter _ hndb
  have hdisj : List.Disjoint
      (diffDirectories bs.tree ns.tree cs.tree).modified
      (diffDirectories bs.tree ns.tree cs.tree).conflicts := by
    intro f hf1 hf2
    rw [mem_diff_modified] at hf1
    rw [mem_diff_conflicts] at hf2
    exact hf1.2.2.2 ⟨hf2.2.2.2.1, hf2.2.2.2.2⟩
  have hMnd := List.Nodup.append hmodnd hconfnd hdisj
  have hcopy : copyTree cs.tree [] = cs.tree := copyTree_nil hndc
  have htree := mergeTrees_tree_eq bs.tree ns.tree cs.tree [] hadd hMnd
  rw [hcopy] at htree
  have hL : (mergeVersions st sk.name now).1.conflicts =
      ((diffDirectories bs.tree ns.tree cs.tree).modified ++
        (diffDirectories bs.tree ns.tree cs.tree).conflicts).filterMap
        (mergeConflictOf bs.tree ns.tree cs.tree) := by
    rw [hred, mergeTrees_eq]
  have hsk2 : getSkill (mergeVersions st sk.name now).2 sk.name =
      some { sk with pending :=
                       some { p with merged := true,
                                     mergedVersion :=
                                       some (p.version ++ "-merged") } } := by
    rw [hred]
    unfold getSkill saveSkill setSnap
    exact lookupA_updateAssoc_self _ _ _
  have htree2 : getTreeOrEmpty (mergeVersions st sk.name now).2
      ⟨sk.name, "merged", p.version ++ "-merged"⟩ =
      (mergeTrees bs.tree ns.tree cs.tree []).1 := by
    rw [hred]
    unfold getTreeOrEmpty lookupSnap saveSkill setSnap
    simp only
    rw [lookupA_updateAssoc_self]
  have hgc : getConflicts (mergeVersions st sk.name now).2 sk.name =
      ((mergeTrees bs.tree ns.tree cs.tree []).1).flatMap
        (fun e => fileMarkerEntries e.1 e.2) := by
    simp only [getConflicts, hsk2]
    rw [htree2]
  have hcongr : ∀ f ∈ (diffDirectories bs.tree ns.tree cs.tree).modified ++
      (diffDirectories bs.tree ns.tree cs.tree).conflicts,
      ((List.length ∘ fun e : String × Content => fileMarkerEntries e.1 e.2) ∘
        (fun f => (f, mergeOutTree bs.tree ns.tree cs.tree f))) f =
      (conflictIdxs (readFileLines bs.tree f) (readFileLines ns.tree f)
        (readFileLines cs.tree f)).length := by
    intro f _
    simp only [Function.comp]
    exact fileMarkerEntries_mergeFile f _ _ _
      (markerFree_readFileLines _ hmfb f) (markerFree_readFileLines _ hmfn f)
      (markerFree_readFileLines _ hmfc f)
  have hzero : (List.map
      (List.length ∘ fun e : String × Content => fileMarkerEntries e.1 e.2)
      ((cs.tree.filter (fun e =>
          decide (e.1 ∉ (diffDirectories bs.tree ns.tree cs.tree).added)) ++
        (diffDirectories bs.tree ns.tree cs.tree).added.map
          (fun f => (f, readFileLines ns.tree f))).filter (fun e =>
          decide (e.1 ∉ ((diffDirectories bs.tree ns.tree cs.tree).modified ++
            (diffDirectories bs.tree ns.tree cs.tree).conflicts))))).sum =
      0 := by
    rw [List.sum_eq_zero]
    intro x hx
    obtain ⟨e, he, hxe⟩ := List.mem_map.mp hx
    rw [← hxe]
    have hmf : markerFree e.2 := by
      have he1 := List.mem_of_mem_filter he
      rcases List.mem_append.mp he1 with h1 | h1
      · exact hmfc e (List.mem_of_mem_filter h1)
      · obtain ⟨f, _, hfe⟩ := List.mem_map.mp h1
        rw [← hfe]
        exact markerFree_readFileLines _ hmfn f
    simp only [Function.comp]
    rw [fileMarkerEntries_markerFree _ _ hmf]
    rfl
  rw [hL, hgc, htree, List.length_flatMap, List.map_append, List.sum_append,
    length_filterMap_mergeConflictOf, hzero, List.map_map,
    List.map_congr_left hcongr,
    sum_map_eq_countP_pos _ _ (fun f _ => hle1 f)]
  omega

/-- C4 witness: a concrete merge with exactly one conflicting line in one
file — both counts are 1. -/
theorem mergeVersions_getConflicts_count_amended_witness :
    (getSkill exStateOneConflict "s" = some exSkillPend ∧
     (conflictIdxs (readFileLines ([("f", ["a"])] : FileTree) "f")
       (readFileLines ([("f", ["x"])] : FileTree) "f")
       (readFileLines ([("f", ["p"])] : FileTree) "f")).length ≤ 1) ∧
    ((mergeVersions exStateOneConflict "s" 9).1.conflicts).length =
      (getConflicts (mergeVersions exStateOneConflict "s" 9).2 "s").length := by
  have h := mergeVersions_getConflicts_count_amended exStateOneConflict "s" 9
    exSkillPend ⟨"v2", true, false, none⟩
    ⟨[("f", ["a"])], 1⟩ ⟨[("f", ["x"])], 2⟩ ⟨[("f", ["p"])], 3⟩
    (by decide) (by decide) (by decide) (by decide) (by decide) (by decide)
    (by decide) (by decide) (by decide) (by decide) (by decide)
    (by decide) (by decide) (by decide)
    (conflictIdxs_singleton_le_one "f" ["a"] ["x"] ["p"] (by decide))
  exact ⟨⟨by decide, by decide⟩, h⟩

/-- C4 counterexample: a file with two conflicting lines — `merge`
reports ONE conflict (a single entry for the file) while `getConflicts`
on the same merged snapshot, before any resolution, reports TWO (one per
conflict block), refuting the claimed equality. -/
theorem mergeVersions_getConflicts_count_cex :
    ((mergeVersions exStateTwoConflicts "s" 9).1.conflicts).length = 1 ∧
    (getConflicts (mergeVersions exStateTwoConflicts "s" 9).2 "s").length = 2 := by
  decide

/-- C8 witness: switching the concrete two-snapshot state to official
`v1`. -/
theorem switchVersion_spec_witness :
    (lookupSnap exState ⟨"s", "official", "v1"⟩ =
      some ⟨[("f", ["1"])], 1⟩) ∧
    (switchVersion exState "s" "v1" "official").1 = true ∧
    lookupA "s" (switchVersion exState "s" "v1" "official").2.active =
      some ⟨"s", "official", "v1"⟩ ∧
    getSkill (switchVersion exState "s" "v1" "official").2 "s" =
      some { exSkill with activeVersion := "v1", activeType := "official" } := by
  have h := (switchVersion_spec exState "s" "v1" "official").2
    ⟨[("f", ["1"])], 1⟩ (by decide)
  exact ⟨by decide, h.1, h.2.1, h.2.2 exSkill (by decide) (by decide)⟩

end Svc
